import Mathlib

/-!
Verification of the triangular-arbitrage engine core.

The C++ sources are shallowly embedded here:
  - `src/src/core/wallet.cpp`           (transactional wallet)
  - `src/src/core/orderbook.cpp`        (book store, depth-message handling, reconnect backoff)
  - `src/src/engine/triangle_scanner.cpp` (cheap profit scan, blacklist window)
  - `src/src/engine/simulator.cpp`      (depth walk, three-leg local execution)

C++ `double` values are modelled as `ℚ`; `std::unordered_map<std::string,double>`
as total functions `String → ℚ` defaulting to 0 (the C++ code inserts a 0 entry
before reading any missing key, so the observable behaviour agrees).
-/

namespace TriArb

/-- One recorded wallet change, as in `struct WalletChange` (wallet.hpp). -/
structure WalletChange where
  asset : String
  deltaBalance : ℚ
  deltaLocked : ℚ
deriving Repr, DecidableEq

/-- A wallet transaction, as in `struct WalletTransaction` (wallet.hpp). -/
structure WalletTransaction where
  active : Bool
  changes : List WalletChange
deriving Repr, DecidableEq

/-- Wallet state: the `balances_` and `locked_` maps of `class Wallet`. -/
structure Wallet where
  total : String → ℚ
  locked : String → ℚ

theorem walletEq {w1 w2 : Wallet} (ht : ∀ a, w1.total a = w2.total a)
    (hl : ∀ a, w1.locked a = w2.locked a) : w1 = w2 := by
  cases w1
  cases w2
  simp only [Wallet.mk.injEq]
  exact ⟨funext ht, funext hl⟩

/-- The constructor `Wallet::Wallet` initialises BTC/ETH/USDT to 0; on the
functional model every asset reads 0. -/
def initialWallet : Wallet := ⟨fun _ => 0, fun _ => 0⟩

/-- `Wallet::setBalance` (wallet.cpp:19-25): writes the total unconditionally,
initialises `locked` to 0 when the asset is new (a no-op in the functional
model).  Note there is no negativity check in the source. -/
def Wallet.setBalance (w : Wallet) (asset : String) (amount : ℚ) : Wallet where
  total := fun a => if a = asset then amount else w.total a
  locked := w.locked

/-- `Wallet::getFreeBalance` (wallet.cpp:27-34): `max(0, total - locked)`;
missing assets read as 0 in the model, matching the early return 0.0. -/
def Wallet.getFreeBalance (w : Wallet) (asset : String) : ℚ :=
  let f := w.total asset - w.locked asset
  if f < 0 then 0 else f

/-- `Wallet::getTotalBalance` (wallet.cpp:36-40). -/
def Wallet.getTotalBalance (w : Wallet) (asset : String) : ℚ :=
  w.total asset

/-- `Wallet::beginTransaction` (wallet.cpp:42-46). -/
def beginTransaction : WalletTransaction := ⟨true, []⟩

/-- `Wallet::applyChange` (wallet.cpp:48-82).  Returns
`(ok, wallet-after, tx-after)`.  On an inactive transaction or an invariant
violation it returns `false` and changes nothing; otherwise it records the
change and applies it.  The source's `newLock > newBal` test is written here
as `newBal < newLock`. -/
def Wallet.applyChange (w : Wallet) (tx : WalletTransaction) (asset : String)
    (deltaBalance deltaLocked : ℚ) : Bool × Wallet × WalletTransaction :=
  if tx.active = false then (false, w, tx)
  else
    let newBal := w.total asset + deltaBalance
    let newLock := w.locked asset + deltaLocked
    if newBal < 0 ∨ newLock < 0 then (false, w, tx)
    else if newBal < newLock then (false, w, tx)
    else
      (true,
       { total := fun a => if a = asset then newBal else w.total a
         locked := fun a => if a = asset then newLock else w.locked a },
       { active := tx.active
         changes := tx.changes ++ [⟨asset, deltaBalance, deltaLocked⟩] })

/-- `Wallet::commitTransaction` (wallet.cpp:84-89): flips `active`; the wallet
maps are untouched (changes were applied by `applyChange` already). -/
def commitTransaction (tx : WalletTransaction) : Bool × WalletTransaction :=
  if tx.active = false then (false, tx)
  else (true, { active := false, changes := tx.changes })

/-- One reversal step of `Wallet::rollbackTransaction` (wallet.cpp:97-103):
subtract the recorded deltas and clamp each field at 0. -/
def revertOne (w : Wallet) (c : WalletChange) : Wallet :=
  let b := w.total c.asset - c.deltaBalance
  let l := w.locked c.asset - c.deltaLocked
  { total := fun a => if a = c.asset then (if b < 0 then 0 else b) else w.total a
    locked := fun a => if a = c.asset then (if l < 0 then 0 else l) else w.locked a }

/-- `Wallet::rollbackTransaction` (wallet.cpp:91-104): no-op on an inactive
transaction; otherwise reverses the recorded changes in LIFO order and marks
the transaction inactive. -/
def Wallet.rollbackTransaction (w : Wallet) (tx : WalletTransaction) :
    Wallet × WalletTransaction :=
  if tx.active = false then (w, tx)
  else (tx.changes.reverse.foldl revertOne w, { active := false, changes := tx.changes })

/-- A requested change, used to describe an arbitrary sequence of
`applyChange` calls. -/
structure ChangeReq where
  asset : String
  deltaBalance : ℚ
  deltaLocked : ℚ
deriving Repr, DecidableEq

/-- Run a sequence of `applyChange` calls, threading wallet and transaction
(failed calls leave both untouched, exactly as the C++ call does). -/
def applyMany : Wallet → WalletTransaction → List ChangeReq → Wallet × WalletTransaction
  | w, tx, [] => (w, tx)
  | w, tx, r :: rs =>
    let res := w.applyChange tx r.asset r.deltaBalance r.deltaLocked
    applyMany res.2.1 res.2.2 rs

/-- All stored totals and locked amounts are nonnegative. -/
def Wallet.Nonneg (w : Wallet) : Prop :=
  ∀ a, 0 ≤ w.total a ∧ 0 ≤ w.locked a

/-- The spec's wallet invariant: `total ≥ 0`, `locked ≥ 0`, `locked ≤ total`
for every asset. -/
def Wallet.Invariant (w : Wallet) : Prop :=
  ∀ a, 0 ≤ w.total a ∧ 0 ≤ w.locked a ∧ w.locked a ≤ w.total a

theorem Wallet.Invariant.nonneg {w : Wallet} (h : w.Invariant) : w.Nonneg :=
  fun a => ⟨(h a).1, (h a).2.1⟩

theorem initialWallet_nonneg : initialWallet.Nonneg :=
  fun _ => ⟨le_refl 0, le_refl 0⟩

/-- Invariant used while a transaction is open: it is active, the current
wallet is nonnegative, and reverting the recorded changes in LIFO order
restores the pre-begin wallet `w0`. -/
def TxInv (w0 w : Wallet) (tx : WalletTransaction) : Prop :=
  tx.active = true ∧ w.Nonneg ∧ tx.changes.reverse.foldl revertOne w = w0

theorem txInv_begin {w0 : Wallet} (h : w0.Nonneg) : TxInv w0 w0 beginTransaction :=
  ⟨rfl, h, rfl⟩

theorem revertOne_cancel {w : Wallet} (hw : w.Nonneg) (asset : String) (dB dL : ℚ) :
    revertOne
      { total := fun a => if a = asset then w.total asset + dB else w.total a
        locked := fun a => if a = asset then w.locked asset + dL else w.locked a }
      ⟨asset, dB, dL⟩ = w := by
  have hb0 : 0 ≤ w.total asset := (hw asset).1
  have hl0 : 0 ≤ w.locked asset := (hw asset).2
  apply walletEq <;> intro a <;>
    simp only [revertOne, if_pos rfl, add_sub_cancel_right] <;>
    by_cases h : a = asset <;>
    simp [h, not_lt.mpr hb0, not_lt.mpr hl0]

theorem applyChange_txinv {w0 w : Wallet} {tx : WalletTransaction}
    (h : TxInv w0 w tx) (asset : String) (dB dL : ℚ) :
    TxInv w0 (w.applyChange tx asset dB dL).2.1 (w.applyChange tx asset dB dL).2.2 := by
  obtain ⟨hact, hnn, hrev⟩ := h
  unfold Wallet.applyChange
  rw [hact]
  simp only [Bool.true_eq_false, if_false]
  by_cases h1 : w.total asset + dB < 0 ∨ w.locked asset + dL < 0
  · simpa [h1] using ⟨hact, hnn, hrev⟩
  · simp only [h1, if_false]
    by_cases h2 : w.total asset + dB < w.locked asset + dL
    · simpa [h2] using ⟨hact, hnn, hrev⟩
    · push_neg at h1
      simp only [h2, if_false]
      refine ⟨rfl, ?_, ?_⟩
      · intro a
        by_cases ha : a = asset
        · simpa [ha] using ⟨h1.1, h1.2⟩
        · simpa [ha] using hnn a
      · simp only [List.reverse_append, List.reverse_cons, List.reverse_nil,
          List.nil_append, List.singleton_append, List.foldl_cons]
        rw [revertOne_cancel hnn asset dB dL]
        exact hrev

theorem applyMany_txinv {w0 : Wallet} :
    ∀ (reqs : List ChangeReq) {w : Wallet} {tx : WalletTransaction},
      TxInv w0 w tx →
      TxInv w0 (applyMany w tx reqs).1 (applyMany w tx reqs).2
  | [], _, _, h => h
  | r :: rs, w, tx, h => by
    unfold applyMany
    exact applyMany_txinv rs (applyChange_txinv h r.asset r.deltaBalance r.deltaLocked)

theorem rollback_of_txinv {w0 w : Wallet} {tx : WalletTransaction}
    (h : TxInv w0 w tx) :
    w.rollbackTransaction tx = (w0, { active := false, changes := tx.changes }) := by
  obtain ⟨hact, _, hrev⟩ := h
  unfold Wallet.rollbackTransaction
  rw [hact]
  simp [hrev]

theorem applyChange_inactive (w : Wallet) (tx : WalletTransaction)
    (h : tx.active = false) (a : String) (dB dL : ℚ) :
    w.applyChange tx a dB dL = (false, w, tx) := by
  unfold Wallet.applyChange
  rw [h]
  simp

theorem revertOne_nonneg {w : Wallet} (hw : w.Nonneg) (c : WalletChange) :
    (revertOne w c).Nonneg := by
  intro a
  refine ⟨?_, ?_⟩ <;> simp only [revertOne] <;> split_ifs <;>
    first
      | exact le_refl 0
      | exact (hw a).1
      | exact (hw a).2
      | linarith

theorem foldl_revertOne_nonneg :
    ∀ (cs : List WalletChange) {w : Wallet}, w.Nonneg → (cs.foldl revertOne w).Nonneg
  | [], _, hw => hw
  | c :: rest, w, hw => by
    simp only [List.foldl_cons]
    exact foldl_revertOne_nonneg rest (revertOne_nonneg hw c)

/-- C3 (amended): from a starting wallet whose totals and locked amounts are
all nonnegative, any finite sequence of `applyChange` calls on a freshly begun
transaction followed by `rollbackTransaction` restores the wallet exactly
(every asset's total and locked), marks the transaction inactive, and every
subsequent `applyChange` on that transaction returns `false` without mutating
the wallet. -/
theorem rollback_restores_prebegin_state (w : Wallet) (reqs : List ChangeReq)
    (hw : w.Nonneg) :
    ((applyMany w beginTransaction reqs).1.rollbackTransaction
        (applyMany w beginTransaction reqs).2).1 = w ∧
    ((applyMany w beginTransaction reqs).1.rollbackTransaction
        (applyMany w beginTransaction reqs).2).2.active = false ∧
    ∀ (a : String) (dB dL : ℚ),
      (((applyMany w beginTransaction reqs).1.rollbackTransaction
          (applyMany w beginTransaction reqs).2).1.applyChange
        ((applyMany w beginTransaction reqs).1.rollbackTransaction
          (applyMany w beginTransaction reqs).2).2 a dB dL) =
      (false,
       ((applyMany w beginTransaction reqs).1.rollbackTransaction
          (applyMany w beginTransaction reqs).2).1,
       ((applyMany w beginTransaction reqs).1.rollbackTransaction
          (applyMany w beginTransaction reqs).2).2) := by
  have hinv := applyMany_txinv reqs (txInv_begin hw)
  have hroll := rollback_of_txinv hinv
  refine ⟨by rw [hroll], by rw [hroll], ?_⟩
  intro a dB dL
  exact applyChange_inactive _ _ (by rw [hroll]) a dB dL

/-- Witness for `rollback_restores_prebegin_state` at the initial wallet and a
one-change sequence. -/
theorem rollback_restores_prebegin_state_witness :
    initialWallet.Nonneg ∧
    ((applyMany initialWallet beginTransaction [⟨"BTC", 5, 0⟩]).1.rollbackTransaction
        (applyMany initialWallet beginTransaction [⟨"BTC", 5, 0⟩]).2).1 = initialWallet :=
  ⟨initialWallet_nonneg,
   (rollback_restores_prebegin_state initialWallet [⟨"BTC", 5, 0⟩]
     initialWallet_nonneg).1⟩

/-- A wallet holding a negative BTC total (reachable through `setBalance`,
which performs no sign check). -/
def negWallet : Wallet :=
  { total := fun a => if a = "BTC" then -5 else 0, locked := fun _ => 0 }

/-- C3 counterexample: starting from a wallet whose BTC total is -5 (a state
`setBalance` can produce), applying `+10` to BTC inside a transaction and
rolling back yields BTC total 0, not -5: the clamp-at-zero in
`rollbackTransaction` loses the negative starting balance, so rollback does
not restore the pre-begin state for every starting wallet. -/
theorem rollback_negative_start_counterexample :
    ((applyMany negWallet beginTransaction [⟨"BTC", 10, 0⟩]).1.rollbackTransaction
        (applyMany negWallet beginTransaction [⟨"BTC", 10, 0⟩]).2).1.total "BTC" = 0 ∧
    negWallet.total "BTC" = -5 := by
  constructor
  · norm_num [applyMany, Wallet.applyChange, Wallet.rollbackTransaction, beginTransaction,
      revertOne, negWallet]
  · norm_num [negWallet]

/-- C2 (amended): `applyChange` preserves the full wallet invariant
(`0 ≤ locked ≤ total` per asset) and, when it reports failure, leaves the
wallet unchanged; `rollbackTransaction` keeps every total and locked amount
nonnegative (its clamp floors each at 0).  `setBalance` does NOT fail on a
negative amount — see `setBalance_negative_counterexample`. -/
theorem wallet_mutations_preserve_invariant (w : Wallet) (tx tx2 : WalletTransaction)
    (a : String) (dB dL : ℚ) (hw : w.Invariant) :
    (w.applyChange tx a dB dL).2.1.Invariant ∧
    ((w.applyChange tx a dB dL).1 = false → (w.applyChange tx a dB dL).2.1 = w) ∧
    (w.rollbackTransaction tx2).1.Nonneg := by
  refine ⟨?_, ?_, ?_⟩
  · unfold Wallet.applyChange
    by_cases hact : tx.active = false
    · simpa [hact] using hw
    · rw [Bool.not_eq_false] at hact
      rw [hact]
      simp only [Bool.true_eq_false, if_false]
      by_cases h1 : w.total a + dB < 0 ∨ w.locked a + dL < 0
      · simpa [h1] using hw
      · simp only [h1, if_false]
        by_cases h2 : w.total a + dB < w.locked a + dL
        · simpa [h2] using hw
        · simp only [h2, if_false]
          push_neg at h1
          intro x
          dsimp only
          by_cases hx : x = a
          · subst hx
            simp only [eq_self_iff_true, if_true]
            exact ⟨h1.1, h1.2, not_lt.mp h2⟩
          · simp only [if_neg hx]
            exact hw x
  · unfold Wallet.applyChange
    by_cases hact : tx.active = false
    · simp [hact]
    · simp only [hact, if_false]
      by_cases h1 : w.total a + dB < 0 ∨ w.locked a + dL < 0
      · simp [h1]
      · simp only [h1, if_false]
        by_cases h2 : w.total a + dB < w.locked a + dL
        · simp [h2]
        · simp [h2]
  · unfold Wallet.rollbackTransaction
    by_cases hact : tx2.active = false
    · simpa [hact] using hw.nonneg
    · simp only [hact, if_false]
      exact foldl_revertOne_nonneg _ hw.nonneg

/-- Witness for `wallet_mutations_preserve_invariant` at concrete arguments. -/
theorem wallet_mutations_preserve_invariant_witness :
    initialWallet.Invariant ∧
    (initialWallet.applyChange beginTransaction "BTC" 1 0).2.1.Invariant :=
  have hinv : initialWallet.Invariant := fun _ => ⟨le_refl 0, le_refl 0, le_refl 0⟩
  ⟨hinv,
   (wallet_mutations_preserve_invariant initialWallet beginTransaction
     beginTransaction "BTC" 1 0 hinv).1⟩

/-- C2 counterexample: `setBalance("BTC", -1)` on the freshly constructed
wallet succeeds (there is no failure path), mutates the wallet, and leaves it
violating the invariant `total ≥ 0`. -/
theorem setBalance_negative_counterexample :
    (initialWallet.setBalance "BTC" (-1)).total "BTC" = -1 ∧
    (initialWallet.setBalance "BTC" (-1)).total "BTC" ≠ initialWallet.total "BTC" ∧
    ¬ (initialWallet.setBalance "BTC" (-1)).Invariant := by
  refine ⟨by norm_num [initialWallet, Wallet.setBalance], ?_, ?_⟩
  · norm_num [initialWallet, Wallet.setBalance]
  · intro h
    have := (h "BTC").1
    norm_num [initialWallet, Wallet.setBalance] at this


/-! ## Order books and the shared depth-walk primitive -/

/-- Order book level, as in `struct OrderBookLevel` (orderbook.hpp). -/
structure OrderBookLevel where
  price : ℚ
  quantity : ℚ
deriving Repr, DecidableEq

/-- Order book snapshot, as in `struct OrderBookData` (orderbook.hpp). -/
structure OrderBookData where
  bids : List OrderBookLevel
  asks : List OrderBookLevel
deriving Repr, DecidableEq

/-- The loop epsilon `1e-12` used by the depth-walk loop. -/
def eps12 : ℚ := 1 / 10 ^ 12

theorem eps12_pos : 0 < eps12 := by norm_num [eps12]

/-- The depth-walk loop shared by `Simulator::doLeg` (simulator.cpp:417-427)
and the `simulateLegFake` lambda of `estimateTriangleProfitUSDT`
(simulator.cpp:855-865), where the source duplicates it verbatim: consume
`min(remaining, level.qty)` at each level's price, accumulating
`(filled, cost)`, and stop once the remainder drops to `≤ 1e-12` or the
levels run out. -/
def fillWalk : List OrderBookLevel → ℚ → ℚ × ℚ
  | [], _ => (0, 0)
  | lvl :: rest, remain =>
    let tradeQty := min remain lvl.quantity
    let tradeCost := tradeQty * lvl.price
    if remain - tradeQty ≤ eps12 then (tradeQty, tradeCost)
    else
      let r := fillWalk rest (remain - tradeQty)
      (tradeQty + r.1, tradeCost + r.2)

/-- When the loop does not stop at a level, that level was consumed whole and
more than `eps12` remains. -/
theorem fillWalk_nobreak {q u : ℚ} (hnb : ¬ (q - min q u ≤ eps12)) :
    min q u = u ∧ eps12 < q - u := by
  rcases le_total q u with h | h
  · exfalso
    apply hnb
    rw [min_eq_left h]
    simpa using le_of_lt eps12_pos
  · refine ⟨min_eq_right h, ?_⟩
    rw [min_eq_right h] at hnb
    exact not_le.mp hnb


theorem fillWalk_filled_bounds :
    ∀ (ls : List OrderBookLevel) {q : ℚ}, (∀ l ∈ ls, 0 ≤ l.quantity) →
      0 ≤ q → 0 ≤ (fillWalk ls q).1 ∧ (fillWalk ls q).1 ≤ q
  | [], q, _, hq => by simpa [fillWalk] using hq
  | lvl :: rest, q, hqty, hq => by
    have hu : 0 ≤ lvl.quantity := hqty lvl (List.mem_cons_self _ _)
    have ht0 : 0 ≤ min q lvl.quantity := le_min hq hu
    simp only [fillWalk]
    by_cases hb : q - min q lvl.quantity ≤ eps12
    · rw [if_pos hb]
      exact ⟨ht0, min_le_left _ _⟩
    · rw [if_neg hb]
      obtain ⟨hmin, hgt⟩ := fillWalk_nobreak hb
      have hq2 : 0 ≤ q - min q lvl.quantity := by
        rw [hmin]
        linarith [eps12_pos]
      have hrest := fillWalk_filled_bounds rest
        (fun l hl => hqty l (List.mem_cons_of_mem _ hl)) hq2
      dsimp only
      constructor
      · exact add_nonneg ht0 hrest.1
      · have := hrest.2
        linarith

theorem fillWalk_filled_mono :
    ∀ (ls : List OrderBookLevel) {q1 q2 : ℚ}, (∀ l ∈ ls, 0 ≤ l.quantity) →
      0 ≤ q1 → q1 ≤ q2 → (fillWalk ls q1).1 ≤ (fillWalk ls q2).1
  | [], _, _, _, _, _ => le_refl 0
  | lvl :: rest, q1, q2, hqty, hq1, h12 => by
    have hu : 0 ≤ lvl.quantity := hqty lvl (List.mem_cons_self _ _)
    have hqtyr : ∀ l ∈ rest, 0 ≤ l.quantity :=
      fun l hl => hqty l (List.mem_cons_of_mem _ hl)
    have ht : min q1 lvl.quantity ≤ min q2 lvl.quantity := min_le_min h12 le_rfl
    simp only [fillWalk]
    by_cases hb1 : q1 - min q1 lvl.quantity ≤ eps12 <;>
      by_cases hb2 : q2 - min q2 lvl.quantity ≤ eps12
    · rw [if_pos hb1, if_pos hb2]
      exact ht
    · rw [if_pos hb1, if_neg hb2]
      obtain ⟨hmin2, hgt2⟩ := fillWalk_nobreak hb2
      have hq2r : 0 ≤ q2 - min q2 lvl.quantity := by
        rw [hmin2]; linarith [eps12_pos]
      have := (fillWalk_filled_bounds rest hqtyr hq2r).1
      dsimp only
      linarith
    · exfalso
      obtain ⟨hmin1, hgt1⟩ := fillWalk_nobreak hb1
      have h2u : min q2 lvl.quantity ≤ lvl.quantity := min_le_right _ _
      linarith
    · rw [if_neg hb1, if_neg hb2]
      obtain ⟨hmin1, hgt1⟩ := fillWalk_nobreak hb1
      obtain ⟨hmin2, hgt2⟩ := fillWalk_nobreak hb2
      have hq1r : 0 ≤ q1 - min q1 lvl.quantity := by
        rw [hmin1]; linarith [eps12_pos]
      have h12r : q1 - min q1 lvl.quantity ≤ q2 - min q2 lvl.quantity := by
        rw [hmin1, hmin2]; linarith
      have := fillWalk_filled_mono rest hqtyr hq1r h12r
      dsimp only
      linarith [ht]

theorem fillWalk_cost_ge {p : ℚ} :
    ∀ (ls : List OrderBookLevel) {q : ℚ}, (∀ l ∈ ls, 0 ≤ l.quantity) →
      (∀ l ∈ ls, p ≤ l.price) → 0 ≤ q →
      p * (fillWalk ls q).1 ≤ (fillWalk ls q).2
  | [], _, _, _, _ => by simp [fillWalk]
  | lvl :: rest, q, hqty, hpr, hq => by
    have hu : 0 ≤ lvl.quantity := hqty lvl (List.mem_cons_self _ _)
    have hv : p ≤ lvl.price := hpr lvl (List.mem_cons_self _ _)
    have ht0 : 0 ≤ min q lvl.quantity := le_min hq hu
    have hstep : p * min q lvl.quantity ≤ min q lvl.quantity * lvl.price := by
      nlinarith
    simp only [fillWalk]
    by_cases hb : q - min q lvl.quantity ≤ eps12
    · rw [if_pos hb]
      exact hstep
    · rw [if_neg hb]
      obtain ⟨hmin, hgt⟩ := fillWalk_nobreak hb
      have hq2 : 0 ≤ q - min q lvl.quantity := by
        rw [hmin]; linarith [eps12_pos]
      have hrec := fillWalk_cost_ge rest
        (fun l hl => hqty l (List.mem_cons_of_mem _ hl))
        (fun l hl => hpr l (List.mem_cons_of_mem _ hl)) hq2
      dsimp only
      nlinarith [hrec]

theorem fillWalk_cost_le {p : ℚ} :
    ∀ (ls : List OrderBookLevel) {q : ℚ}, (∀ l ∈ ls, 0 ≤ l.quantity) →
      (∀ l ∈ ls, l.price ≤ p) → 0 ≤ q →
      (fillWalk ls q).2 ≤ p * (fillWalk ls q).1
  | [], _, _, _, _ => by simp [fillWalk]
  | lvl :: rest, q, hqty, hpr, hq => by
    have hu : 0 ≤ lvl.quantity := hqty lvl (List.mem_cons_self _ _)
    have hv : lvl.price ≤ p := hpr lvl (List.mem_cons_self _ _)
    have ht0 : 0 ≤ min q lvl.quantity := le_min hq hu
    have hstep : min q lvl.quantity * lvl.price ≤ p * min q lvl.quantity := by
      nlinarith
    simp only [fillWalk]
    by_cases hb : q - min q lvl.quantity ≤ eps12
    · rw [if_pos hb]
      exact hstep
    · rw [if_neg hb]
      obtain ⟨hmin, hgt⟩ := fillWalk_nobreak hb
      have hq2 : 0 ≤ q - min q lvl.quantity := by
        rw [hmin]; linarith [eps12_pos]
      have hrec := fillWalk_cost_le rest
        (fun l hl => hqty l (List.mem_cons_of_mem _ hl))
        (fun l hl => hpr l (List.mem_cons_of_mem _ hl)) hq2
      dsimp only
      nlinarith [hrec]

theorem fillWalk_marginal_ge {p : ℚ} :
    ∀ (ls : List OrderBookLevel) {q1 q2 : ℚ}, (∀ l ∈ ls, 0 ≤ l.quantity) →
      (∀ l ∈ ls, p ≤ l.price) → 0 ≤ q1 → q1 ≤ q2 →
      p * ((fillWalk ls q2).1 - (fillWalk ls q1).1) ≤
        (fillWalk ls q2).2 - (fillWalk ls q1).2
  | [], _, _, _, _, _, _ => by simp [fillWalk]
  | lvl :: rest, q1, q2, hqty, hpr, hq1, h12 => by
    have hu : 0 ≤ lvl.quantity := hqty lvl (List.mem_cons_self _ _)
    have hv : p ≤ lvl.price := hpr lvl (List.mem_cons_self _ _)
    have hqtyr : ∀ l ∈ rest, 0 ≤ l.quantity :=
      fun l hl => hqty l (List.mem_cons_of_mem _ hl)
    have hprr : ∀ l ∈ rest, p ≤ l.price :=
      fun l hl => hpr l (List.mem_cons_of_mem _ hl)
    have ht : min q1 lvl.quantity ≤ min q2 lvl.quantity := min_le_min h12 le_rfl
    simp only [fillWalk]
    by_cases hb1 : q1 - min q1 lvl.quantity ≤ eps12 <;>
      by_cases hb2 : q2 - min q2 lvl.quantity ≤ eps12
    · rw [if_pos hb1, if_pos hb2]
      dsimp only
      nlinarith [ht, hv]
    · rw [if_pos hb1, if_neg hb2]
      obtain ⟨hmin2, hgt2⟩ := fillWalk_nobreak hb2
      have hq2r : 0 ≤ q2 - min q2 lvl.quantity := by
        rw [hmin2]; linarith [eps12_pos]
      have hC : p * (fillWalk rest (q2 - min q2 lvl.quantity)).1 ≤
          (fillWalk rest (q2 - min q2 lvl.quantity)).2 :=
        fillWalk_cost_ge rest hqtyr hprr hq2r
      have ht1u : min q1 lvl.quantity ≤ lvl.quantity := min_le_right _ _
      dsimp only
      rw [hmin2]
      rw [hmin2] at hC
      nlinarith [hC, ht1u, hv]
    · exfalso
      obtain ⟨hmin1, hgt1⟩ := fillWalk_nobreak hb1
      have h2u : min q2 lvl.quantity ≤ lvl.quantity := min_le_right _ _
      linarith
    · rw [if_neg hb1, if_neg hb2]
      obtain ⟨hmin1, hgt1⟩ := fillWalk_nobreak hb1
      obtain ⟨hmin2, hgt2⟩ := fillWalk_nobreak hb2
      have hq1r : 0 ≤ q1 - min q1 lvl.quantity := by
        rw [hmin1]; linarith [eps12_pos]
      have h12r : q1 - min q1 lvl.quantity ≤ q2 - min q2 lvl.quantity := by
        rw [hmin1, hmin2]; linarith
      have hrec := fillWalk_marginal_ge rest hqtyr hprr hq1r h12r
      dsimp only
      rw [hmin1, hmin2]
      rw [hmin1, hmin2] at hrec
      nlinarith [hrec]

theorem fillWalk_marginal_le {p : ℚ} :
    ∀ (ls : List OrderBookLevel) {q1 q2 : ℚ}, (∀ l ∈ ls, 0 ≤ l.quantity) →
      (∀ l ∈ ls, l.price ≤ p) → 0 ≤ q1 → q1 ≤ q2 →
      (fillWalk ls q2).2 - (fillWalk ls q1).2 ≤
        p * ((fillWalk ls q2).1 - (fillWalk ls q1).1)
  | [], _, _, _, _, _, _ => by simp [fillWalk]
  | lvl :: rest, q1, q2, hqty, hpr, hq1, h12 => by
    have hu : 0 ≤ lvl.quantity := hqty lvl (List.mem_cons_self _ _)
    have hv : lvl.price ≤ p := hpr lvl (List.mem_cons_self _ _)
    have hqtyr : ∀ l ∈ rest, 0 ≤ l.quantity :=
      fun l hl => hqty l (List.mem_cons_of_mem _ hl)
    have hprr : ∀ l ∈ rest, l.price ≤ p :=
      fun l hl => hpr l (List.mem_cons_of_mem _ hl)
    have ht : min q1 lvl.quantity ≤ min q2 lvl.quantity := min_le_min h12 le_rfl
    simp only [fillWalk]
    by_cases hb1 : q1 - min q1 lvl.quantity ≤ eps12 <;>
      by_cases hb2 : q2 - min q2 lvl.quantity ≤ eps12
    · rw [if_pos hb1, if_pos hb2]
      dsimp only
      nlinarith [ht, hv]
    · rw [if_pos hb1, if_neg hb2]
      obtain ⟨hmin2, hgt2⟩ := fillWalk_nobreak hb2
      have hq2r : 0 ≤ q2 - min q2 lvl.quantity := by
        rw [hmin2]; linarith [eps12_pos]
      have hC : (fillWalk rest (q2 - min q2 lvl.quantity)).2 ≤
          p * (fillWalk rest (q2 - min q2 lvl.quantity)).1 :=
        fillWalk_cost_le rest hqtyr hprr hq2r
      have ht1u : min q1 lvl.quantity ≤ lvl.quantity := min_le_right _ _
      dsimp only
      rw [hmin2]
      rw [hmin2] at hC
      nlinarith [hC, ht1u, hv]
    · exfalso
      obtain ⟨hmin1, hgt1⟩ := fillWalk_nobreak hb1
      have h2u : min q2 lvl.quantity ≤ lvl.quantity := min_le_right _ _
      linarith
    · rw [if_neg hb1, if_neg hb2]
      obtain ⟨hmin1, hgt1⟩ := fillWalk_nobreak hb1
      obtain ⟨hmin2, hgt2⟩ := fillWalk_nobreak hb2
      have hq1r : 0 ≤ q1 - min q1 lvl.quantity := by
        rw [hmin1]; linarith [eps12_pos]
      have h12r : q1 - min q1 lvl.quantity ≤ q2 - min q2 lvl.quantity := by
        rw [hmin1, hmin2]; linarith
      have hrec := fillWalk_marginal_le rest hqtyr hprr hq1r h12r
      dsimp only
      rw [hmin1, hmin2]
      rw [hmin1, hmin2] at hrec
      nlinarith [hrec]

theorem fillWalk_avg_mono_asc :
    ∀ (ls : List OrderBookLevel) {q1 q2 : ℚ}, (∀ l ∈ ls, 0 ≤ l.quantity) →
      ls.Pairwise (fun a b => a.price ≤ b.price) → 0 ≤ q1 → q1 ≤ q2 →
      (fillWalk ls q1).2 * (fillWalk ls q2).1 ≤
        (fillWalk ls q2).2 * (fillWalk ls q1).1
  | [], _, _, _, _, _, _ => by simp [fillWalk]
  | lvl :: rest, q1, q2, hqty, hsort, hq1, h12 => by
    have hu : 0 ≤ lvl.quantity := hqty lvl (List.mem_cons_self _ _)
    have hqtyr : ∀ l ∈ rest, 0 ≤ l.quantity :=
      fun l hl => hqty l (List.mem_cons_of_mem _ hl)
    have hlb : ∀ l ∈ rest, lvl.price ≤ l.price :=
      fun l hl => (List.pairwise_cons.mp hsort).1 l hl
    have hsortr : rest.Pairwise (fun a b => a.price ≤ b.price) :=
      (List.pairwise_cons.mp hsort).2
    have ht : min q1 lvl.quantity ≤ min q2 lvl.quantity := min_le_min h12 le_rfl
    have ht10 : 0 ≤ min q1 lvl.quantity := le_min hq1 hu
    simp only [fillWalk]
    by_cases hb1 : q1 - min q1 lvl.quantity ≤ eps12 <;>
      by_cases hb2 : q2 - min q2 lvl.quantity ≤ eps12
    · rw [if_pos hb1, if_pos hb2]
      dsimp only
      nlinarith []
    · rw [if_pos hb1, if_neg hb2]
      obtain ⟨hmin2, hgt2⟩ := fillWalk_nobreak hb2
      have hq2r : 0 ≤ q2 - min q2 lvl.quantity := by
        rw [hmin2]; linarith [eps12_pos]
      have hC : lvl.price * (fillWalk rest (q2 - min q2 lvl.quantity)).1 ≤
          (fillWalk rest (q2 - min q2 lvl.quantity)).2 :=
        fillWalk_cost_ge rest hqtyr hlb hq2r
      dsimp only
      rw [hmin2]
      rw [hmin2] at hC
      nlinarith [mul_le_mul_of_nonneg_left hC ht10]
    · exfalso
      obtain ⟨hmin1, hgt1⟩ := fillWalk_nobreak hb1
      have h2u : min q2 lvl.quantity ≤ lvl.quantity := min_le_right _ _
      linarith
    · rw [if_neg hb1, if_neg hb2]
      obtain ⟨hmin1, hgt1⟩ := fillWalk_nobreak hb1
      obtain ⟨hmin2, hgt2⟩ := fillWalk_nobreak hb2
      have hq1r : 0 ≤ q1 - min q1 lvl.quantity := by
        rw [hmin1]; linarith [eps12_pos]
      have h12r : q1 - min q1 lvl.quantity ≤ q2 - min q2 lvl.quantity := by
        rw [hmin1, hmin2]; linarith
      have hrec := fillWalk_avg_mono_asc rest hqtyr hsortr hq1r h12r
      have hmarg := fillWalk_marginal_ge rest hqtyr hlb hq1r h12r
      dsimp only
      rw [hmin1, hmin2]
      rw [hmin1, hmin2] at hrec hmarg
      nlinarith [mul_le_mul_of_nonneg_left hmarg hu]

theorem fillWalk_avg_mono_desc :
    ∀ (ls : List OrderBookLevel) {q1 q2 : ℚ}, (∀ l ∈ ls, 0 ≤ l.quantity) →
      ls.Pairwise (fun a b => b.price ≤ a.price) → 0 ≤ q1 → q1 ≤ q2 →
      (fillWalk ls q2).2 * (fillWalk ls q1).1 ≤
        (fillWalk ls q1).2 * (fillWalk ls q2).1
  | [], _, _, _, _, _, _ => by simp [fillWalk]
  | lvl :: rest, q1, q2, hqty, hsort, hq1, h12 => by
    have hu : 0 ≤ lvl.quantity := hqty lvl (List.mem_cons_self _ _)
    have hqtyr : ∀ l ∈ rest, 0 ≤ l.quantity :=
      fun l hl => hqty l (List.mem_cons_of_mem _ hl)
    have hub : ∀ l ∈ rest, l.price ≤ lvl.price :=
      fun l hl => (List.pairwise_cons.mp hsort).1 l hl
    have hsortr : rest.Pairwise (fun a b => b.price ≤ a.price) :=
      (List.pairwise_cons.mp hsort).2
    have ht : min q1 lvl.quantity ≤ min q2 lvl.quantity := min_le_min h12 le_rfl
    have ht10 : 0 ≤ min q1 lvl.quantity := le_min hq1 hu
    simp only [fillWalk]
    by_cases hb1 : q1 - min q1 lvl.quantity ≤ eps12 <;>
      by_cases hb2 : q2 - min q2 lvl.quantity ≤ eps12
    · rw [if_pos hb1, if_pos hb2]
      dsimp only
      nlinarith []
    · rw [if_pos hb1, if_neg hb2]
      obtain ⟨hmin2, hgt2⟩ := fillWalk_nobreak hb2
      have hq2r : 0 ≤ q2 - min q2 lvl.quantity := by
        rw [hmin2]; linarith [eps12_pos]
      have hC : (fillWalk rest (q2 - min q2 lvl.quantity)).2 ≤
          lvl.price * (fillWalk rest (q2 - min q2 lvl.quantity)).1 :=
        fillWalk_cost_le rest hqtyr hub hq2r
      dsimp only
      rw [hmin2]
      rw [hmin2] at hC
      nlinarith [mul_le_mul_of_nonneg_left hC ht10]
    · exfalso
      obtain ⟨hmin1, hgt1⟩ := fillWalk_nobreak hb1
      have h2u : min q2 lvl.quantity ≤ lvl.quantity := min_le_right _ _
      linarith
    · rw [if_neg hb1, if_neg hb2]
      obtain ⟨hmin1, hgt1⟩ := fillWalk_nobreak hb1
      obtain ⟨hmin2, hgt2⟩ := fillWalk_nobreak hb2
      have hq1r : 0 ≤ q1 - min q1 lvl.quantity := by
        rw [hmin1]; linarith [eps12_pos]
      have h12r : q1 - min q1 lvl.quantity ≤ q2 - min q2 lvl.quantity := by
        rw [hmin1, hmin2]; linarith
      have hrec := fillWalk_avg_mono_desc rest hqtyr hsortr hq1r h12r
      have hmarg := fillWalk_marginal_le rest hqtyr hub hq1r h12r
      dsimp only
      rw [hmin1, hmin2]
      rw [hmin1, hmin2] at hrec hmarg
      nlinarith [mul_le_mul_of_nonneg_left hmarg hu]

/-- C4 (confirmed): for a fixed side with nonnegative level quantities, the
depth-walk primitive fills monotonically in the desired quantity, and the
average fill price `cost / filled` is non-decreasing in the desired quantity
on an ascending (ask) side and non-increasing on a descending (bid) side,
whenever the smaller desired quantity achieves a positive fill. -/
theorem depthwalk_monotone (levels : List OrderBookLevel) (q1 q2 : ℚ)
    (hqty : ∀ l ∈ levels, 0 ≤ l.quantity) (hq1 : 0 ≤ q1) (h12 : q1 ≤ q2) :
    (fillWalk levels q1).1 ≤ (fillWalk levels q2).1 ∧
    (levels.Pairwise (fun a b => a.price ≤ b.price) → 0 < (fillWalk levels q1).1 →
      (fillWalk levels q1).2 / (fillWalk levels q1).1 ≤
        (fillWalk levels q2).2 / (fillWalk levels q2).1) ∧
    (levels.Pairwise (fun a b => b.price ≤ a.price) → 0 < (fillWalk levels q1).1 →
      (fillWalk levels q2).2 / (fillWalk levels q2).1 ≤
        (fillWalk levels q1).2 / (fillWalk levels q1).1) := by
  have hmono := fillWalk_filled_mono levels hqty hq1 h12
  refine ⟨hmono, ?_, ?_⟩
  · intro hsort hf1
    have hf2 : 0 < (fillWalk levels q2).1 := lt_of_lt_of_le hf1 hmono
    rw [div_le_div_iff₀ hf1 hf2]
    exact fillWalk_avg_mono_asc levels hqty hsort hq1 h12
  · intro hsort hf1
    have hf2 : 0 < (fillWalk levels q2).1 := lt_of_lt_of_le hf1 hmono
    rw [div_le_div_iff₀ hf2 hf1]
    exact fillWalk_avg_mono_desc levels hqty hsort hq1 h12

/-- Witness for `depthwalk_monotone` on a concrete two-level book. -/
theorem depthwalk_monotone_witness :
    (∀ l ∈ [OrderBookLevel.mk 10 1, OrderBookLevel.mk 10 2], 0 ≤ l.quantity) ∧
    (0 : ℚ) ≤ 1 ∧ (1 : ℚ) ≤ 2 ∧
    (fillWalk [OrderBookLevel.mk 10 1, OrderBookLevel.mk 10 2] 1).1 ≤
      (fillWalk [OrderBookLevel.mk 10 1, OrderBookLevel.mk 10 2] 2).1 :=
  ⟨by decide, by norm_num, by norm_num,
   (depthwalk_monotone [OrderBookLevel.mk 10 1, OrderBookLevel.mk 10 2] 1 2
     (by decide) (by norm_num) (by norm_num)).1⟩

/-! ## Scanner: cheap profit estimate (C5) -/

/-- A triangle, as in `struct Triangle` (triangle.hpp): a base asset and the
ordered symbol path (three direction-tagged symbols). -/
structure Triangle where
  base : String
  path : List String
deriving Repr, DecidableEq

/-- Character-list suffix test.  `TriangleScanner::calculateProfit` uses
`sym.compare(sym.size()-4, 4, tag) == 0` guarded by `sym.size() >= 4`; on the
character level this is exactly "ends with tag". -/
def endsWithTag (sym tag : String) : Bool :=
  tag.data.isSuffixOf sym.data

/-- Drop the last `n` characters, as `sym.substr(0, sym.size()-n)` does. -/
def dropRightChars (sym : String) (n : ℕ) : String :=
  ⟨sym.data.take (sym.data.length - n)⟩

/-- Direction parsing of `TriangleScanner::calculateProfit`
(triangle_scanner.cpp:374-384): an `_INV` suffix marks a reversed edge; both
`_INV` and `_FWD` suffixes are stripped to obtain the raw symbol. -/
def stripDir (sym : String) : Bool × String :=
  if endsWithTag sym "_INV" then (true, dropRightChars sym 4)
  else if endsWithTag sym "_FWD" then (false, dropRightChars sym 4)
  else (false, sym)

/-- One leg of `TriangleScanner::calculateProfit`
(triangle_scanner.cpp:386-404): fetch the raw symbol's book, fail on an empty
side or nonpositive best price; otherwise multiply by the best bid (forward)
or divide by the best ask (reversed), then apply the hard-coded fee. -/
def calcLeg (fee : ℚ) (obm : String → OrderBookData) (amount : ℚ) (sym : String) :
    Option ℚ :=
  let d := stripDir sym
  let ob := obm d.2
  match ob.bids, ob.asks with
  | [], _ => none
  | _, [] => none
  | b :: _, a :: _ =>
    if b.price ≤ 0 ∨ a.price ≤ 0 then none
    else if d.1 then some (amount / a.price * (1 - fee))
    else some (amount * b.price * (1 - fee))

/-- The three-leg loop of `calculateProfit`, threading the amount. -/
def calcLegs (fee : ℚ) (obm : String → OrderBookData) :
    ℚ → List String → Option ℚ
  | amount, [] => some amount
  | amount, sym :: rest =>
    match calcLeg fee obm amount sym with
    | none => none
    | some a => calcLegs fee obm a rest

/-- `TriangleScanner::calculateProfit` (triangle_scanner.cpp:365-408): start
from notional 1, walk the first three path entries, return `(final−1)·100`,
with sentinel `-999` on a short path, an empty book side, or a nonpositive
best price.  The per-leg fee is the local constant `double fee = 0.001;` —
the configured fee is not consulted. -/
def calculateProfit (obm : String → OrderBookData) (tri : Triangle) : ℚ :=
  if tri.path.length < 3 then -999
  else
    match calcLegs (1 / 1000) obm 1 (tri.path.take 3) with
    | none => -999
    | some amount => (amount - 1) * 100

/-- One edge of the spec's `cheap_profit`, written from the spec's words with
the fee as the configured parameter: "For a FORWARD edge multiply by best
bid, for INVERSE divide by best ask; after each leg multiply by `(1 − fee)`.
... If any book is empty or a best price is nonpositive, return the
sentinel." -/
def specEdgeStep (fee : ℚ) (obm : String → OrderBookData) (acc : Option ℚ)
    (sym : String) : Option ℚ :=
  match acc with
  | none => none
  | some amount =>
    let d := stripDir sym
    let ob := obm d.2
    match ob.bids.head?, ob.asks.head? with
    | some bid, some ask =>
      if 0 < bid.price ∧ 0 < ask.price then
        some ((if d.1 then amount / ask.price else amount * bid.price) * (1 - fee))
      else none
    | _, _ => none

/-- The spec's `cheap_profit(cycle)` with a configurable per-leg fee
fraction, as the spec describes it. -/
def cheapProfitSpec (fee : ℚ) (obm : String → OrderBookData) (tri : Triangle) : ℚ :=
  if 3 ≤ tri.path.length then
    match (tri.path.take 3).foldl (specEdgeStep fee obm) (some 1) with
    | none => -999
    | some final => (final - 1) * 100
  else -999

theorem calcLeg_eq_specEdgeStep (fee : ℚ) (obm : String → OrderBookData)
    (amount : ℚ) (sym : String) :
    calcLeg fee obm amount sym = specEdgeStep fee obm (some amount) sym := by
  unfold calcLeg specEdgeStep
  cases hb : (obm (stripDir sym).2).bids with
  | nil => simp [hb]
  | cons b bs =>
    cases ha : (obm (stripDir sym).2).asks with
    | nil => simp [hb, ha]
    | cons a as =>
      dsimp only
      rw [hb, ha]
      simp only [List.head?_cons]
      by_cases h : b.price ≤ 0 ∨ a.price ≤ 0
      · have hnot : ¬ (0 < b.price ∧ 0 < a.price) := by
          rcases h with h | h <;> intro hc <;> [exact absurd hc.1 (not_lt.mpr h);
            exact absurd hc.2 (not_lt.mpr h)]
        rw [if_pos h, if_neg hnot]
      · push_neg at h
        have hpos : 0 < b.price ∧ 0 < a.price := ⟨h.1, h.2⟩
        rw [if_neg (by push_neg; exact h), if_pos hpos]
        by_cases hd : (stripDir sym).1 <;> simp [hd]

theorem specEdgeStep_none (fee : ℚ) (obm : String → OrderBookData) :
    ∀ (l : List String), l.foldl (specEdgeStep fee obm) none = none
  | [] => rfl
  | _ :: rest => specEdgeStep_none fee obm rest

theorem calcLegs_eq_foldl (fee : ℚ) (obm : String → OrderBookData) :
    ∀ (l : List String) (amount : ℚ),
      calcLegs fee obm amount l = l.foldl (specEdgeStep fee obm) (some amount)
  | [], amount => rfl
  | sym :: rest, amount => by
    unfold calcLegs
    rw [List.foldl_cons, ← calcLeg_eq_specEdgeStep]
    cases h : calcLeg fee obm amount sym with
    | none => exact (specEdgeStep_none fee obm rest).symm
    | some a => exact calcLegs_eq_foldl fee obm rest a

/-- C5 (amended): `calculateProfit` computes exactly the spec's `cheap_profit`
formula — notional 1, multiply by best bid on a forward edge, divide by best
ask on an inverse edge, times `(1 − fee)` per leg, `(final − 1) × 100`,
sentinel `-999` on an empty book or nonpositive best price — but with the fee
hard-coded to `0.001` rather than taken from the configuration. -/
theorem calculateProfit_eq_spec_hardcoded_fee (obm : String → OrderBookData)
    (tri : Triangle) :
    calculateProfit obm tri = cheapProfitSpec (1 / 1000) obm tri := by
  unfold calculateProfit cheapProfitSpec
  by_cases h : tri.path.length < 3
  · rw [if_pos h, if_neg (by omega)]
  · rw [if_neg h, if_pos (by omega), calcLegs_eq_foldl]

/-- Book map and triangle for the C5 counterexample: every symbol carries a
single-level book at price 2. -/
def c5obm : String → OrderBookData :=
  fun _ => ⟨[⟨2, 1⟩], [⟨2, 1⟩]⟩

def c5tri : Triangle :=
  ⟨"AAA", ["AAAUSDT_FWD", "AAAUSDT_FWD", "AAAUSDT_FWD"]⟩

/-- C5 counterexample: with a configured fee of 0.002 the spec's formula and
the code disagree — `calculateProfit` keeps using its hard-coded 0.001, so
the claim's "fee is the configured per-leg fee fraction" is false. -/
theorem calculateProfit_fee_counterexample :
    cheapProfitSpec (2 / 1000) c5obm c5tri ≠ calculateProfit c5obm c5tri := by
  have hstrip : stripDir "AAAUSDT_FWD" = (false, "AAAUSDT") := by decide
  norm_num [cheapProfitSpec, calculateProfit, c5obm, c5tri, calcLegs, calcLeg,
    specEdgeStep, hstrip]

/-! ## Scanner: failure window and blacklist (C6) -/

/-- `TriangleScanner::makeTriangleKey` (triangle_scanner.cpp:606-613): the
path symbols joined by `->`. -/
def makeTriangleKey (tri : Triangle) : String :=
  String.intercalate "->" tri.path

/-- The list update of `TriangleScanner::recordFailure`
(triangle_scanner.cpp:629-637): push the current time, then erase every entry
whose age `now - t` exceeds `failWindowSec`. -/
def recordFailureTimes (failWindowSec : ℚ) (times : List ℚ) (now : ℚ) : List ℚ :=
  (times ++ [now]).filter (fun t => !(decide (failWindowSec < now - t)))

/-- The `failTimestamps_` map (triangle_scanner.hpp): key → recorded failure
times; `none` for a key that never failed. -/
structure FailState where
  failTimestamps : String → Option (List ℚ)

def emptyFailState : FailState := ⟨fun _ => none⟩

/-- `TriangleScanner::recordFailure` on the store: `failTimestamps_[key]`
creates an empty entry when missing, then the list update runs on it. -/
def recordFailure (failWindowSec : ℚ) (st : FailState) (key : String) (now : ℚ) :
    FailState :=
  ⟨fun k =>
    if k = key then
      some (recordFailureTimes failWindowSec ((st.failTimestamps key).getD []) now)
    else st.failTimestamps k⟩

/-- `TriangleScanner::isBlacklisted` (triangle_scanner.cpp:640-649): a key
that never failed is not blacklisted; otherwise the stored list — pruned only
at the most recent `recordFailure` — is compared against `maxFailsInWindow`. -/
def isBlacklisted (maxFailsInWindow : ℕ) (st : FailState) (key : String) : Bool :=
  match st.failTimestamps key with
  | none => false
  | some times => decide (maxFailsInWindow ≤ times.length)

/-- A whole failure history of one key: successive `recordFailure` calls at
the given times. -/
def recordTrace (failWindowSec : ℚ) (key : String) (trace : List ℚ) : FailState :=
  trace.foldl (fun st t => recordFailure failWindowSec st key t) emptyFailState

theorem foldRecord_key (failWindowSec : ℚ) (key : String) :
    ∀ (trace : List ℚ) (st : FailState) (l : List ℚ),
      st.failTimestamps key = some l →
      ((trace.foldl (fun s t => recordFailure failWindowSec s key t) st).failTimestamps key) =
        some (trace.foldl (recordFailureTimes failWindowSec) l)
  | [], _, _, h => h
  | t :: ts, st, l, h => by
    rw [List.foldl_cons, List.foldl_cons]
    exact foldRecord_key failWindowSec key ts _ _ (by simp [recordFailure, h])

theorem countList (failWindowSec tc : ℚ) :
    ∀ (trace init : List ℚ), (∀ t ∈ trace, t ≤ tc) →
      List.countP (fun t => decide (tc - t ≤ failWindowSec)) (init ++ trace) ≤
        (trace.foldl (recordFailureTimes failWindowSec) init).length
  | [], init, _ => by
    simpa using List.countP_le_length _
  | u :: rest, init, hle => by
    have hu : u ≤ tc := hle u (List.mem_cons_self _ _)
    have hrest : ∀ t ∈ rest, t ≤ tc :=
      fun t ht => hle t (List.mem_cons_of_mem _ ht)
    rw [List.foldl_cons]
    have ih := countList failWindowSec tc rest
      (recordFailureTimes failWindowSec init u) hrest
    refine le_trans ?_ ih
    have hassoc : init ++ u :: rest = (init ++ [u]) ++ rest := by simp
    have hkey : List.countP (fun t => decide (tc - t ≤ failWindowSec)) (init ++ [u]) ≤
        List.countP (fun t => decide (tc - t ≤ failWindowSec))
          (recordFailureTimes failWindowSec init u) := by
      unfold recordFailureTimes
      rw [List.countP_filter]
      refine List.countP_mono_left ?_
      intro x _ hx
      simp only [decide_eq_true_eq] at hx
      simp only [Bool.and_eq_true, decide_eq_true_eq, Bool.not_eq_true]
      exact ⟨hx, by simpa using not_lt.mpr (by linarith)⟩
    calc List.countP (fun t => decide (tc - t ≤ failWindowSec)) (init ++ u :: rest)
        = List.countP (fun t => decide (tc - t ≤ failWindowSec)) (init ++ [u]) +
            List.countP (fun t => decide (tc - t ≤ failWindowSec)) rest := by
          rw [hassoc, List.countP_append]
      _ ≤ List.countP (fun t => decide (tc - t ≤ failWindowSec))
            (recordFailureTimes failWindowSec init u) +
          List.countP (fun t => decide (tc - t ≤ failWindowSec)) rest :=
          Nat.add_le_add_right hkey _
      _ = List.countP (fun t => decide (tc - t ≤ failWindowSec))
            (recordFailureTimes failWindowSec init u ++ rest) := by
          rw [List.countP_append]

/-- The best-profit selection loop of `TriangleScanner::scanTrianglesForSymbol`
(triangle_scanner.cpp:277-285): the running best starts at `(-999, -1)` and is
replaced only when a profit is strictly greater. -/
def scanBestAux : List ℚ → ℕ → ℚ × ℤ → ℚ × ℤ
  | [], _, acc => acc
  | p :: rest, i, acc =>
    scanBestAux rest (i + 1) (if acc.1 < p then (p, (i : ℤ)) else acc)

def scanBest (profits : List ℚ) : ℚ × ℤ :=
  scanBestAux profits 0 (-999, -1)

/-- The execution gate of `scanTrianglesForSymbol`
(triangle_scanner.cpp:292-301): the best cycle is handed to the simulator
only when `bestProfit > minProfitThreshold_` and `bestLocalIdx >= 0`. -/
def scanExecuteIndex (profits : List ℚ) (threshold : ℚ) : Option ℕ :=
  let best := scanBest profits
  if threshold < best.1 ∧ 0 ≤ best.2 then some best.2.toNat else none

/-- Per-scan profit list (triangle_scanner.cpp:256-269): a blacklisted
triangle gets the dummy `-999` instead of being scored. -/
def scanProfits (obm : String → OrderBookData) (maxFailsInWindow : ℕ)
    (st : FailState) (tris : List Triangle) : List ℚ :=
  tris.map (fun tri =>
    if isBlacklisted maxFailsInWindow st (makeTriangleKey tri) then -999
    else calculateProfit obm tri)

theorem scanBestAux_spec (full : List ℚ) :
    ∀ (l pre : List ℚ) (acc : ℚ × ℤ),
      full = pre ++ l → -999 ≤ acc.1 →
      (0 ≤ acc.2 → -999 < acc.1 ∧ ∃ j : ℕ, acc.2 = (j : ℤ) ∧ full[j]? = some acc.1) →
      -999 ≤ (scanBestAux l pre.length acc).1 ∧
      (0 ≤ (scanBestAux l pre.length acc).2 →
        -999 < (scanBestAux l pre.length acc).1 ∧
        ∃ j : ℕ, (scanBestAux l pre.length acc).2 = (j : ℤ) ∧
          full[j]? = some (scanBestAux l pre.length acc).1)
  | [], pre, acc, hfull, h1, h2 => ⟨h1, h2⟩
  | p :: rest, pre, acc, hfull, h1, h2 => by
    rw [scanBestAux]
    have hlen : pre.length + 1 = (pre ++ [p]).length := by simp
    have hfull2 : full = (pre ++ [p]) ++ rest := by simp [hfull]
    by_cases hcmp : acc.1 < p
    · rw [if_pos hcmp, hlen]
      refine scanBestAux_spec full rest (pre ++ [p]) (p, (pre.length : ℤ)) hfull2
        (le_of_lt (lt_of_le_of_lt h1 hcmp)) ?_
      intro _
      refine ⟨lt_of_le_of_lt h1 hcmp, pre.length, rfl, ?_⟩
      rw [hfull, List.getElem?_append_right (le_refl pre.length)]
      simp
    · rw [if_neg hcmp, hlen]
      exact scanBestAux_spec full rest (pre ++ [p]) acc hfull2 h1 h2

theorem scanBest_spec (profits : List ℚ)
    (h : 0 ≤ (scanBest profits).2) :
    -999 < (scanBest profits).1 ∧
    ∃ j : ℕ, (scanBest profits).2 = (j : ℤ) ∧
      profits[j]? = some (scanBest profits).1 := by
  have := scanBestAux_spec profits profits [] (-999, -1) rfl (le_refl _)
    (by intro hc; norm_num at hc)
  exact this.2 h

/-- C6 (amended): recording at least `maxFailsInWindow` failures whose age at
the check time is within `failWindowSec` does blacklist the key, and a scan
never hands a blacklisted triangle to the simulator (it receives the dummy
`-999`, and the execution gate requires a best profit strictly above `-999`).
The converse direction of the original claim is false: pruning happens only
inside `recordFailure`, so blacklisting can persist after the window has
expired — see `blacklist_stale_window_counterexample`. -/
theorem blacklist_forward_and_scan (failWindowSec tc : ℚ) (maxFails : ℕ)
    (key : String) (trace : List ℚ) (hpos : 0 < maxFails)
    (hle : ∀ t ∈ trace, t ≤ tc)
    (hcount : maxFails ≤
      trace.countP (fun t => decide (tc - t ≤ failWindowSec))) :
    isBlacklisted maxFails (recordTrace failWindowSec key trace) key = true ∧
    ∀ (obm : String → OrderBookData) (st : FailState) (tris : List Triangle)
      (threshold : ℚ) (i : ℕ) (tri : Triangle),
      scanExecuteIndex (scanProfits obm maxFails st tris) threshold = some i →
      tris[i]? = some tri →
      isBlacklisted maxFails st (makeTriangleKey tri) = false := by
  constructor
  · cases trace with
    | nil =>
      simp only [List.countP_nil, Nat.le_zero] at hcount
      exact absurd hcount (by omega)
    | cons t ts =>
      have hkey : (recordTrace failWindowSec key (t :: ts)).failTimestamps key =
          some ((t :: ts).foldl (recordFailureTimes failWindowSec) []) := by
        unfold recordTrace
        rw [List.foldl_cons, List.foldl_cons]
        exact foldRecord_key failWindowSec key ts _ _
          (by simp [recordFailure, emptyFailState])
      have hbound := countList failWindowSec tc (t :: ts) [] hle
      rw [List.nil_append] at hbound
      unfold isBlacklisted
      rw [hkey]
      simp only [decide_eq_true_eq]
      omega
  · intro obm st tris threshold i tri hexec htri
    unfold scanExecuteIndex at hexec
    by_cases hgate : threshold < (scanBest (scanProfits obm maxFails st tris)).1 ∧
        0 ≤ (scanBest (scanProfits obm maxFails st tris)).2
    · rw [if_pos hgate] at hexec
      obtain ⟨hbest, j, hj, hval⟩ := scanBest_spec _ hgate.2
      have hij : i = j := by
        have h2 := Option.some.inj hexec
        omega
      subst hij
      unfold scanProfits at hval
      rw [List.getElem?_map, htri] at hval
      by_cases hbl : isBlacklisted maxFails st (makeTriangleKey tri) = true
      · exfalso
        rw [Option.map_some', if_pos hbl] at hval
        have hv : (-999 : ℚ) = (scanBest (scanProfits obm maxFails st tris)).1 :=
          Option.some.inj hval
        rw [← hv] at hbest
        exact lt_irrefl _ hbest
      · exact Bool.not_eq_true _ ▸ hbl
    · rw [if_neg hgate] at hexec
      exact absurd hexec (by simp)

/-- Witness for `blacklist_forward_and_scan`: three failures at time 0,
checked at time 0 with a 60 s window and `maxFailsInWindow = 3`. -/
theorem blacklist_forward_and_scan_witness :
    (0 < 3) ∧
    (∀ t ∈ ([0, 0, 0] : List ℚ), t ≤ 0) ∧
    3 ≤ List.countP (fun t => decide ((0 : ℚ) - t ≤ 60)) [0, 0, 0] ∧
    isBlacklisted 3 (recordTrace 60 "K" [0, 0, 0]) "K" = true :=
  ⟨by norm_num, by simp, by norm_num [List.countP_cons],
   (blacklist_forward_and_scan 60 0 3 "K" [0, 0, 0] (by norm_num) (by simp)
     (by norm_num [List.countP_cons])).1⟩

/-- C6 counterexample: failures at times 0, 1, 2 with a 60 s window blacklist
the key, and the key is STILL blacklisted when checked at time 1000, although
the rolling window at that check time contains no entry at all — pruning only
happens inside `recordFailure`, so "blacklisted only while the window still
contains `maxFailsInWindow` fresh entries" is false. -/
theorem blacklist_stale_window_counterexample :
    isBlacklisted 3 (recordTrace 60 "K" [0, 1, 2]) "K" = true ∧
    List.countP (fun t => decide ((1000 : ℚ) - t ≤ 60)) [0, 1, 2] = 0 := by
  constructor
  · norm_num [recordTrace, recordFailure, recordFailureTimes, emptyFailState,
      isBlacklisted, List.filter_cons, List.filter_nil, Option.getD]
  · norm_num [List.countP_cons]

/-! ## OrderBookManager: depth messages, store reads, staleness (C7, C10) -/

/-- Descending order on levels (bid side): `std::sort` with
`a.price > b.price` (orderbook.cpp:199-201). -/
def bidOrder (a b : OrderBookLevel) : Prop := b.price ≤ a.price

/-- Ascending order on levels (ask side): `std::sort` with
`a.price < b.price` (orderbook.cpp:202-204). -/
def askOrder (a b : OrderBookLevel) : Prop := a.price ≤ b.price

instance : DecidableRel bidOrder :=
  fun a b => inferInstanceAs (Decidable (b.price ≤ a.price))

instance : DecidableRel askOrder :=
  fun a b => inferInstanceAs (Decidable (a.price ≤ b.price))

instance : IsTotal OrderBookLevel bidOrder :=
  ⟨fun a b => le_total b.price a.price⟩

instance : IsTotal OrderBookLevel askOrder :=
  ⟨fun a b => le_total a.price b.price⟩

instance : IsTrans OrderBookLevel bidOrder :=
  ⟨fun _ _ _ hab hbc => le_trans hbc hab⟩

instance : IsTrans OrderBookLevel askOrder :=
  ⟨fun _ _ _ hab hbc => le_trans hab hbc⟩

/-- Build one side from a parsed depth payload
(`OrderBookManager::onCombinedMessage`, orderbook.cpp:182-204): keep only
levels with `qty > 0`, then sort by price with the side's comparator
(`std::sort`; modelled by insertion sort, which realises the same sortedness
guarantee — the source comparator looks at prices only, so tie order is
unspecified there too). -/
def buildSide (r : OrderBookLevel → OrderBookLevel → Prop) [DecidableRel r]
    (raw : List (ℚ × ℚ)) : List OrderBookLevel :=
  List.insertionSort r
    ((raw.filter (fun pq => decide (0 < pq.2))).map (fun pq => ⟨pq.1, pq.2⟩))

/-- The book store and last-update index of `OrderBookManager`
(`books_` and `lastMsgTime_`). -/
structure OBMState where
  books : String → Option OrderBookData
  lastMsgTime : String → Option ℚ

def initialOBM : OBMState := ⟨fun _ => none, fun _ => none⟩

/-- `OrderBookManager::onCombinedMessage` (orderbook.cpp:155-221) after JSON
parsing: drop `qty == 0` levels (the parsed lists are the raw `(price, qty)`
pairs), sort bids descending and asks ascending, replace the symbol's whole
book, and stamp `lastMsgTime_[symbol]`. -/
def onDepthMessage (st : OBMState) (symbol : String)
    (rawBids rawAsks : List (ℚ × ℚ)) (now : ℚ) : OBMState where
  books := fun s =>
    if s = symbol then some ⟨buildSide bidOrder rawBids, buildSide askOrder rawAsks⟩
    else st.books s
  lastMsgTime := fun s => if s = symbol then some now else st.lastMsgTime s

/-- `OrderBookManager::getOrderBook` (orderbook.cpp:234-240): a
default-constructed (empty) book for an unknown symbol, a copy of the stored
book otherwise; neither `books_` nor `lastMsgTime_` is written. -/
def getOrderBook (st : OBMState) (symbol : String) : OrderBookData :=
  match st.books symbol with
  | none => ⟨[], []⟩
  | some b => b

/-- `OrderBookManager::isStale` (orderbook.cpp:243-254): true when the symbol
was never updated, otherwise when `now - last > maxStaleMs`. -/
def isStale (st : OBMState) (now : ℚ) (symbol : String) (maxStaleMs : ℚ) : Bool :=
  match st.lastMsgTime symbol with
  | none => true
  | some t => decide (maxStaleMs < now - t)

theorem buildSide_qty_pos (r : OrderBookLevel → OrderBookLevel → Prop)
    [DecidableRel r] (raw : List (ℚ × ℚ)) :
    ∀ l ∈ buildSide r raw, 0 < l.quantity := by
  intro l hl
  have hperm := List.perm_insertionSort r
    ((raw.filter (fun pq => decide (0 < pq.2))).map (fun pq => ⟨pq.1, pq.2⟩))
  have hmem := hperm.mem_iff.mp hl
  obtain ⟨pq, hpq, rfl⟩ := List.mem_map.mp hmem
  have := List.of_mem_filter hpq
  simpa using this

/-- C7 (amended): after a depth message the stored book for the symbol holds
exactly the freshly built sides — every level has `quantity > 0`, bids sorted
descending, asks ascending — and the result replaces the previous book
entirely (it does not depend on the prior state).  Duplicate levels at one
price are NOT merged: see `orderbook_duplicate_levels_counterexample`. -/
theorem orderbook_message_invariants (st : OBMState) (symbol : String)
    (rawBids rawAsks : List (ℚ × ℚ)) (now : ℚ) :
    ∃ bids asks,
      (onDepthMessage st symbol rawBids rawAsks now).books symbol =
        some ⟨bids, asks⟩ ∧
      (∀ l ∈ bids, 0 < l.quantity) ∧
      (∀ l ∈ asks, 0 < l.quantity) ∧
      List.Sorted bidOrder bids ∧
      List.Sorted askOrder asks ∧
      (onDepthMessage st symbol rawBids rawAsks now).books symbol =
        (onDepthMessage initialOBM symbol rawBids rawAsks now).books symbol := by
  refine ⟨buildSide bidOrder rawBids, buildSide askOrder rawAsks, ?_, ?_, ?_, ?_, ?_, ?_⟩
  · simp [onDepthMessage]
  · exact buildSide_qty_pos bidOrder rawBids
  · exact buildSide_qty_pos askOrder rawAsks
  · exact List.sorted_insertionSort bidOrder _
  · exact List.sorted_insertionSort askOrder _
  · simp [onDepthMessage]

/-- C7 counterexample: a message carrying two bid levels at the same price
100 is stored as two separate levels at price 100 — duplicates at the same
price are not merged into one. -/
theorem orderbook_duplicate_levels_counterexample :
    (getOrderBook (onDepthMessage initialOBM "BTCUSDT" [(100, 1), (100, 2)] [] 0)
        "BTCUSDT").bids.length = 2 ∧
    ∀ l ∈ (getOrderBook (onDepthMessage initialOBM "BTCUSDT" [(100, 1), (100, 2)] [] 0)
        "BTCUSDT").bids, l.price = 100 := by
  have hbook : getOrderBook (onDepthMessage initialOBM "BTCUSDT" [(100, 1), (100, 2)] [] 0)
      "BTCUSDT" = ⟨[⟨100, 1⟩, ⟨100, 2⟩], []⟩ := by
    norm_num [getOrderBook, onDepthMessage, buildSide, List.insertionSort,
      List.orderedInsert, bidOrder, askOrder, List.filter_cons]
  rw [hbook]
  constructor
  · rfl
  · intro l hl
    fin_cases hl <;> rfl

/-- One inbound depth message, for describing message histories. -/
structure DepthMsg where
  symbol : String
  rawBids : List (ℚ × ℚ)
  rawAsks : List (ℚ × ℚ)
  time : ℚ

/-- Fold a message history into the store, starting from the empty store. -/
def publishAll (msgs : List DepthMsg) : OBMState :=
  msgs.foldl (fun st m => onDepthMessage st m.symbol m.rawBids m.rawAsks m.time)
    initialOBM

theorem publishAll_untouched (symbol : String) :
    ∀ (msgs : List DepthMsg) (st : OBMState),
      (∀ m ∈ msgs, m.symbol ≠ symbol) →
      st.books symbol = none → st.lastMsgTime symbol = none →
      ((msgs.foldl (fun s m => onDepthMessage s m.symbol m.rawBids m.rawAsks m.time)
          st).books symbol = none ∧
       (msgs.foldl (fun s m => onDepthMessage s m.symbol m.rawBids m.rawAsks m.time)
          st).lastMsgTime symbol = none)
  | [], st, _, hb, ht => ⟨hb, ht⟩
  | m :: rest, st, hm, hb, ht => by
    rw [List.foldl_cons]
    have hne : symbol ≠ m.symbol := (hm m (List.mem_cons_self _ _)).symm
    exact publishAll_untouched symbol rest _
      (fun x hx => hm x (List.mem_cons_of_mem _ hx))
      (by simp [onDepthMessage, hne, hb])
      (by simp [onDepthMessage, hne, ht])

/-- C10 (confirmed): for a symbol no depth message has ever been published
for, `getOrderBook` returns the default-constructed empty book (never an
error), and the symbol still reads as stale for every `now` and staleness
bound. -/
theorem getOrderBook_unknown_symbol (msgs : List DepthMsg) (symbol : String)
    (h : ∀ m ∈ msgs, m.symbol ≠ symbol) :
    getOrderBook (publishAll msgs) symbol = ⟨[], []⟩ ∧
    ∀ (now maxStaleMs : ℚ), isStale (publishAll msgs) now symbol maxStaleMs = true := by
  obtain ⟨hb, ht⟩ := publishAll_untouched symbol msgs initialOBM h rfl rfl
  have hb2 : (publishAll msgs).books symbol = none := hb
  have ht2 : (publishAll msgs).lastMsgTime symbol = none := ht
  constructor
  · unfold getOrderBook
    rw [hb2]
  · intro now maxStaleMs
    unfold isStale
    rw [ht2]

/-- Witness for `getOrderBook_unknown_symbol`: one BTCUSDT message published,
ETHUSDT queried. -/
theorem getOrderBook_unknown_symbol_witness :
    (∀ m ∈ [DepthMsg.mk "BTCUSDT" [(1, 1)] [(1, 1)] 0], m.symbol ≠ "ETHUSDT") ∧
    getOrderBook (publishAll [DepthMsg.mk "BTCUSDT" [(1, 1)] [(1, 1)] 0]) "ETHUSDT" =
      ⟨[], []⟩ :=
  ⟨by intro m hm; simp at hm; subst hm; simp,
   (getOrderBook_unknown_symbol [DepthMsg.mk "BTCUSDT" [(1, 1)] [(1, 1)] 0] "ETHUSDT"
     (by intro m hm; simp at hm; subst hm; simp)).1⟩

/-! ## Reconnect backoff (C8) -/

/-- `OrderBookManager::reconnectCombined` (orderbook.cpp:145-149) sleeps for
its `backoff` argument (in seconds) before reconnecting. -/
def reconnectSleepSeconds (backoff : ℕ) : ℕ := backoff

/-- The `nextBackoff` value computed inside `reconnectCombined` —
`std::min(backoff*2, 300)` — which the function then never uses: it calls
`connectCombinedWebSocket(url)` without passing it anywhere. -/
def nextBackoffComputed (backoff : ℕ) : ℕ := min (backoff * 2) 300

/-- The constant backoff argument that the fail and close handlers of
`connectCombinedWebSocket` pass to every `reconnectCombined` call
(orderbook.cpp:120-129, 137): always 2. -/
def handlerReconnectBackoff : ℕ := 2

/-- The sleep before the n-th reconnection attempt of one connection, per the
code: every attempt starts from a handler that passes 2. -/
def codeBackoffAtAttempt (_ : ℕ) : ℕ :=
  reconnectSleepSeconds handlerReconnectBackoff

/-- Modelled from the spec: "the worker sleeps for `backoff` seconds and
reopens the same chunk URL, doubling `backoff` up to a cap (e.g. 300 s)" —
the intended sleep sequence, starting from the handlers' initial 2. -/
def specBackoffAtAttempt : ℕ → ℕ
  | 0 => 2
  | n + 1 => min (specBackoffAtAttempt n * 2) 300

/-- C8: the reconnect sleep is the constant 2 seconds on every attempt — the
doubled value `min(backoff*2, 300)` is computed and then discarded, so from
the second attempt on the code diverges from the doubling the spec
describes. -/
theorem backoff_constant_two :
    (∀ n, codeBackoffAtAttempt n = 2) ∧
    nextBackoffComputed handlerReconnectBackoff = 4 ∧
    specBackoffAtAttempt 1 = 4 ∧
    codeBackoffAtAttempt 1 = 2 :=
  ⟨fun _ => rfl, rfl, rfl, rfl⟩

/-! ## Simulator: symbol parsing, filters, local three-leg execution (C1, C9) -/

/-- The static `knownQuotes` list (simulator.cpp:18-20). -/
def knownQuotes : List String := ["USDT", "BTC", "ETH", "BNB", "BUSD", "USDC"]

/-- `parseSymbol` (simulator.cpp:23-34): the first known quote that is a
proper suffix of the pair splits it into `(base, quote)`; otherwise the quote
is `"UNKNOWN"`.  (`rfind` + position check in the source is exactly the
suffix test.) -/
def parseSymbol (pair : String) : String × String :=
  match knownQuotes.find? (fun q =>
    decide (q.data.length < pair.data.length) && q.data.isSuffixOf pair.data) with
  | some q => (dropRightChars pair q.data.length, q)
  | none => (pair, "UNKNOWN")

/-- `struct SymbolFilter` (simulator.hpp). -/
structure SymbolFilter where
  minNotional : ℚ
  minQty : ℚ
deriving Repr, DecidableEq

/-- `Simulator::passesExchangeFilters` (simulator.cpp:113-142): default
bounds `minNotional = 10`, `minQty = 0.0001` when the symbol has no filter
entry. -/
def passesExchangeFilters (filters : String → Option SymbolFilter)
    (symbol : String) (quantityBase priceEstimate : ℚ) : Bool :=
  match filters symbol with
  | none =>
    !(decide (quantityBase * priceEstimate < 10) || decide (quantityBase < 1 / 10000))
  | some filt =>
    if quantityBase < filt.minQty then false
    else if quantityBase * priceEstimate < filt.minNotional then false
    else true

/-- The simulator configuration taken by the constructor (simulator.cpp:42-78)
plus the loaded symbol filters. -/
structure SimConfig where
  feePercent : ℚ
  slippageTolerance : ℚ
  maxFractionPerTrade : ℚ
  minFillRatio : ℚ
  minProfitUSDT : ℚ
  symbolFilters : String → Option SymbolFilter

/-- First level price with the source's empty-side fallback 0
(`ob.bids.empty() ? 0.0 : ob.bids[0].price`). -/
def headPriceD (side : List OrderBookLevel) : ℚ :=
  match side with
  | [] => 0
  | l :: _ => l.price

/-- The two wallet updates of a local leg (simulator.cpp:450-458): both
`applyChange` calls always run; the leg fails when either returns false. -/
def applyLegChanges (w : Wallet) (tx : WalletTransaction) (isSell : Bool)
    (base quote : String) (filled net : ℚ) : Bool × Wallet × WalletTransaction :=
  if isSell then
    let r1 := w.applyChange tx base (-filled) 0
    let r2 := r1.2.1.applyChange r1.2.2 quote net 0
    (r1.1 && r2.1, r2.2.1, r2.2.2)
  else
    let r1 := w.applyChange tx quote (-net) 0
    let r2 := r1.2.1.applyChange r1.2.2 base filled 0
    (r1.1 && r2.1, r2.2.1, r2.2.2)

/-- The pure sizing-and-check part of `Simulator::doLeg`, local branch
(simulator.cpp:375-448): parse the symbol, size the order from the free
balance and `maxFractionPerTrade`, depth-walk the active side, check fill
ratio and slippage, apply the fee.  Returns the data the wallet-update step
needs — `(isSell, base, quote, filled, net)` — or `none` when any check
fails.  None of these steps touches the wallet or the transaction. -/
def legPlan (cfg : SimConfig) (w : Wallet) (pairName : String)
    (ob : OrderBookData) : Option (Bool × String × String × ℚ × ℚ) :=
  let bq := parseSymbol pairName
  if bq.2 = "UNKNOWN" then none
  else
    let isSell : Bool :=
      decide (bq.2 = "USDT" ∨ bq.2 = "BTC" ∨ bq.2 = "BUSD" ∨ bq.2 = "ETH")
    let freeAmt := if isSell then w.getFreeBalance bq.1 else w.getFreeBalance bq.2
    if freeAmt ≤ 0 then none
    else
      let used := freeAmt * cfg.maxFractionPerTrade
      if used ≤ 0 then none
      else
        let bestPx := if isSell then headPriceD ob.bids else headPriceD ob.asks
        if bestPx ≤ eps12 then none
        else
          let desiredQtyBase := if isSell then used else used / bestPx
          if passesExchangeFilters cfg.symbolFilters pairName desiredQtyBase bestPx
              = false then none
          else
            let fc := fillWalk (if isSell then ob.bids else ob.asks) desiredQtyBase
            if fc.1 ≤ eps12 then none
            else
              let fillRatio := fc.1 / desiredQtyBase
              if fillRatio < cfg.minFillRatio then none
              else
                let slip := |fc.2 / fc.1 - bestPx| / bestPx
                if cfg.slippageTolerance < slip then none
                else
                  let net := if isSell then fc.2 * (1 - cfg.feePercent)
                             else fc.2 * (1 + cfg.feePercent)
                  some (isSell, bq.1, bq.2, fc.1, net)

/-- `Simulator::doLeg`, local-simulation branch (simulator.cpp:375-477): run
the checks, then apply the two wallet changes. -/
def doLeg (cfg : SimConfig) (w : Wallet) (tx : WalletTransaction)
    (pairName : String) (ob : OrderBookData) : Bool × Wallet × WalletTransaction :=
  match legPlan cfg w pairName ob with
  | none => (false, w, tx)
  | some p => applyLegChanges w tx p.1 p.2.1 p.2.2.1 p.2.2.2.1 p.2.2.2.2

/-- The shadow balances of `estimateTriangleProfitUSDT`
(simulator.cpp:806-809). -/
structure Shadow where
  fakeUSDT : ℚ
  fakeBTC : ℚ
  fakeETH : ℚ
deriving Repr, DecidableEq

/-- The `simulateLegFake` lambda of `estimateTriangleProfitUSDT`
(simulator.cpp:812-896): the same leg logic on the three shadow balances;
assets other than BTC/ETH/USDT read as 0 and proceeds to them are dropped,
exactly as in the source's if-chains. -/
def simulateLegFake (cfg : SimConfig) (sh : Shadow) (symbol : String)
    (ob : OrderBookData) : Option Shadow :=
  let bq := parseSymbol symbol
  if bq.2 = "UNKNOWN" then none
  else
    let isSell : Bool :=
      decide (bq.2 = "USDT" ∨ bq.2 = "BTC" ∨ bq.2 = "BUSD" ∨ bq.2 = "ETH")
    let bestPx := if isSell then headPriceD ob.bids else headPriceD ob.asks
    if bestPx ≤ 0 then none
    else
      let freeAmt :=
        if isSell then
          if bq.1 = "BTC" then sh.fakeBTC else if bq.1 = "ETH" then sh.fakeETH else 0
        else
          if bq.2 = "USDT" then sh.fakeUSDT
          else if bq.2 = "BTC" then sh.fakeBTC
          else if bq.2 = "ETH" then sh.fakeETH else 0
      if freeAmt ≤ eps12 then none
      else
        let rawSpend := freeAmt * cfg.maxFractionPerTrade
        if isSell = false ∧ rawSpend ≤ eps12 then none
        else
          let desiredQtyBase := if isSell then rawSpend else rawSpend / bestPx
          if passesExchangeFilters cfg.symbolFilters symbol desiredQtyBase bestPx
              = false then none
          else
            let fc := fillWalk (if isSell then ob.bids else ob.asks) desiredQtyBase
            if fc.1 ≤ eps12 then none
            else
              let fillRatio := fc.1 / desiredQtyBase
              if fillRatio < cfg.minFillRatio then none
              else
                let avgPx := fc.2 / fc.1
                let slip := |avgPx - bestPx| / bestPx
                if cfg.slippageTolerance < slip then none
                else
                  if isSell then
                    let netProceeds := fc.2 * (1 - cfg.feePercent)
                    let sh1 :=
                      if bq.1 = "BTC" then { sh with fakeBTC := sh.fakeBTC - fc.1 }
                      else if bq.1 = "ETH" then { sh with fakeETH := sh.fakeETH - fc.1 }
                      else sh
                    some (if bq.2 = "USDT" then
                            { sh1 with fakeUSDT := sh1.fakeUSDT + netProceeds }
                          else if bq.2 = "BTC" then
                            { sh1 with fakeBTC := sh1.fakeBTC + netProceeds }
                          else if bq.2 = "ETH" then
                            { sh1 with fakeETH := sh1.fakeETH + netProceeds }
                          else sh1)
                  else
                    let netCost := fc.2 * (1 + cfg.feePercent)
                    let sh1 :=
                      if bq.2 = "USDT" then { sh with fakeUSDT := sh.fakeUSDT - netCost }
                      else if bq.2 = "BTC" then { sh with fakeBTC := sh.fakeBTC - netCost }
                      else if bq.2 = "ETH" then { sh with fakeETH := sh.fakeETH - netCost }
                      else sh
                    some (if bq.1 = "BTC" then { sh1 with fakeBTC := sh1.fakeBTC + fc.1 }
                          else if bq.1 = "ETH" then { sh1 with fakeETH := sh1.fakeETH + fc.1 }
                          else sh1)

/-- `Simulator::estimateTriangleProfitUSDT` (simulator.cpp:791-907): price the
free BTC/ETH/USDT balances with the three books' best bids, run the three
legs on shadow balances, return `-1` when any leg fails. -/
def estimateTriangleProfitUSDT (cfg : SimConfig) (w : Wallet) (tri : Triangle)
    (ob1 ob2 ob3 : OrderBookData) : ℚ :=
  let b1 := headPriceD ob1.bids
  let b2 := headPriceD ob2.bids
  let b3 := headPriceD ob3.bids
  let oldVal := w.getFreeBalance "USDT" + w.getFreeBalance "BTC" * b1 +
    w.getFreeBalance "ETH" * b2
  let sh0 : Shadow :=
    ⟨w.getFreeBalance "USDT", w.getFreeBalance "BTC", w.getFreeBalance "ETH"⟩
  match simulateLegFake cfg sh0 (tri.path.getD 0 "") ob1 with
  | none => -1
  | some sh1 =>
    match simulateLegFake cfg sh1 (tri.path.getD 1 "") ob2 with
    | none => -1
    | some sh2 =>
      match simulateLegFake cfg sh2 (tri.path.getD 2 "") ob3 with
      | none => -1
      | some sh3 => sh3.fakeUSDT + sh3.fakeBTC * b3 + sh3.fakeETH * b2 - oldVal

/-- Result of `Simulator::simulateTradeDepthWithWallet`: the boolean return,
the wallet afterwards, the `totalTrades_` / `cumulativeProfit_` counters, the
`failReason` out-parameter, and the `absoluteProfit` the success path
computes and logs. -/
structure ExecResult where
  success : Bool
  wallet : Wallet
  totalTrades : ℤ
  cumulativeProfit : ℚ
  failReason : Option String
  absoluteProfit : Option ℚ

/-- The threshold `-1e-14` of the counter update (simulator.cpp:274). -/
def epsProfit : ℚ := 1 / 10 ^ 14

/-- The portfolio valuation used before and after the legs
(simulator.cpp:184-186, 261-263): free BTC and ETH priced with the given
best bids plus free USDT. -/
def execValue (w : Wallet) (bEth bBtc : ℚ) : ℚ :=
  w.getFreeBalance "BTC" * bBtc + w.getFreeBalance "ETH" * bEth +
    w.getFreeBalance "USDT"

/-- The success tail of `simulateTradeDepthWithWallet`
(simulator.cpp:259-283): commit (a pure flag flip — the changes are already
applied), compute `newValUSDT` with `b3`/`b2`, and update the counters when
`absoluteProfit > -1e-14`. -/
def execFinish (w3 : Wallet) (trades : ℤ) (cum oldVal b2 b3 : ℚ) : ExecResult :=
  let absProfit := execValue w3 b2 b3 - oldVal
  if -epsProfit < absProfit then
    ⟨true, w3, trades + 1, cum + absProfit, none, some absProfit⟩
  else
    ⟨true, w3, trades, cum, none, some absProfit⟩

/-- Leg 3 of `simulateTradeDepthWithWallet` (simulator.cpp:245-256). -/
def execLeg3 (cfg : SimConfig) (tri : Triangle) (ob3 : OrderBookData)
    (w2 : Wallet) (tx2 : WalletTransaction) (trades : ℤ)
    (cum oldVal b2 b3 : ℚ) : ExecResult :=
  let r3 := doLeg cfg w2 tx2 (tri.path.getD 2 "") ob3
  if r3.1 = false then
    ⟨false, (r3.2.1.rollbackTransaction r3.2.2).1, trades, cum,
     some "LEG3_FAIL", none⟩
  else execFinish r3.2.1 trades cum oldVal b2 b3

/-- Leg 2 of `simulateTradeDepthWithWallet` (simulator.cpp:234-242); the
live-mode reversal block is inactive in local mode. -/
def execLeg2 (cfg : SimConfig) (tri : Triangle) (ob2 ob3 : OrderBookData)
    (w1 : Wallet) (tx1 : WalletTransaction) (trades : ℤ)
    (cum oldVal b2 b3 : ℚ) : ExecResult :=
  let r2 := doLeg cfg w1 tx1 (tri.path.getD 1 "") ob2
  if r2.1 = false then
    ⟨false, (r2.2.1.rollbackTransaction r2.2.2).1, trades, cum,
     some "LEG2_FAIL", none⟩
  else execLeg3 cfg tri ob3 r2.2.1 r2.2.2 trades cum oldVal b2 b3

/-- Leg 1 of `simulateTradeDepthWithWallet` (simulator.cpp:222-231), opening
the wallet transaction. -/
def execLeg1 (cfg : SimConfig) (tri : Triangle) (ob1 ob2 ob3 : OrderBookData)
    (w : Wallet) (trades : ℤ) (cum oldVal b2 b3 : ℚ) : ExecResult :=
  let r1 := doLeg cfg w beginTransaction (tri.path.getD 0 "") ob1
  if r1.1 = false then
    ⟨false, (r1.2.1.rollbackTransaction r1.2.2).1, trades, cum,
     some "LEG1_FAIL", none⟩
  else execLeg2 cfg tri ob2 ob3 r1.2.1 r1.2.2 trades cum oldVal b2 b3

/-- `Simulator::simulateTradeDepthWithWallet` (simulator.cpp:147-284) in
local mode (`executor_ == nullptr`, `liveMode_ == false`): the three books
are the provided ones; empty-side pre-checks, profitability re-check with
`estimateTriangleProfitUSDT` on the same books, then the three legs inside
one wallet transaction with rollback on any failure, commit and counter
update on success. -/
def simulateTradeDepthWithWallet (cfg : SimConfig) (tri : Triangle)
    (ob1 ob2 ob3 : OrderBookData) (w : Wallet) (totalTrades : ℤ)
    (cumulativeProfit : ℚ) : ExecResult :=
  if ob1.bids = [] ∨ ob1.asks = [] then
    ⟨false, w, totalTrades, cumulativeProfit, some "LEG1_EMPTY_OB", none⟩
  else if ob2.bids = [] ∨ ob2.asks = [] then
    ⟨false, w, totalTrades, cumulativeProfit, some "LEG2_EMPTY_OB", none⟩
  else if ob3.bids = [] ∨ ob3.asks = [] then
    ⟨false, w, totalTrades, cumulativeProfit, some "LEG3_EMPTY_OB", none⟩
  else if estimateTriangleProfitUSDT cfg w tri ob1 ob2 ob3 < 0 then
    ⟨false, w, totalTrades, cumulativeProfit, some "UNPROFITABLE_OR_FILL_FAIL", none⟩
  else if estimateTriangleProfitUSDT cfg w tri ob1 ob2 ob3 < cfg.minProfitUSDT then
    ⟨false, w, totalTrades, cumulativeProfit, some "BELOW_MIN_PROFIT_USDT", none⟩
  else
    execLeg1 cfg tri ob1 ob2 ob3 w totalTrades cumulativeProfit
      (execValue w (headPriceD ob2.bids) (headPriceD ob1.bids))
      (headPriceD ob2.bids) (headPriceD ob3.bids)

theorem applyLegChanges_txinv {w0 w : Wallet} {tx : WalletTransaction}
    (h : TxInv w0 w tx) (isSell : Bool) (base quote : String) (filled net : ℚ) :
    TxInv w0 (applyLegChanges w tx isSell base quote filled net).2.1
      (applyLegChanges w tx isSell base quote filled net).2.2 := by
  unfold applyLegChanges
  cases isSell
  · simp only [Bool.false_eq_true, if_false]
    exact applyChange_txinv (applyChange_txinv h quote (-net) 0) base filled 0
  · simp only [if_true]
    exact applyChange_txinv (applyChange_txinv h base (-filled) 0) quote net 0

theorem doLeg_txinv {cfg : SimConfig} {w0 w : Wallet} {tx : WalletTransaction}
    (h : TxInv w0 w tx) (pairName : String) (ob : OrderBookData) :
    TxInv w0 (doLeg cfg w tx pairName ob).2.1 (doLeg cfg w tx pairName ob).2.2 := by
  unfold doLeg
  cases hp : legPlan cfg w pairName ob with
  | none => exact h
  | some p => exact applyLegChanges_txinv h p.1 p.2.1 p.2.2.1 p.2.2.2.1 p.2.2.2.2

theorem execFinish_success (w3 : Wallet) (trades : ℤ) (cum oldVal b2 b3 : ℚ) :
    (execFinish w3 trades cum oldVal b2 b3).success = true := by
  unfold execFinish
  dsimp only
  split <;> rfl

theorem execLeg3_wallet {cfg : SimConfig} {tri : Triangle} {ob3 : OrderBookData}
    {w0 w2 : Wallet} {tx2 : WalletTransaction} {trades : ℤ} {cum oldVal b2 b3 : ℚ}
    (h : TxInv w0 w2 tx2) :
    (execLeg3 cfg tri ob3 w2 tx2 trades cum oldVal b2 b3).success = false →
    (execLeg3 cfg tri ob3 w2 tx2 trades cum oldVal b2 b3).wallet = w0 := by
  unfold execLeg3
  dsimp only
  split
  · exact fun _ => congrArg Prod.fst (rollback_of_txinv (doLeg_txinv h _ _))
  · intro hfail
    rw [execFinish_success] at hfail
    exact absurd hfail (by simp)

theorem execLeg2_wallet {cfg : SimConfig} {tri : Triangle} {ob2 ob3 : OrderBookData}
    {w0 w1 : Wallet} {tx1 : WalletTransaction} {trades : ℤ} {cum oldVal b2 b3 : ℚ}
    (h : TxInv w0 w1 tx1) :
    (execLeg2 cfg tri ob2 ob3 w1 tx1 trades cum oldVal b2 b3).success = false →
    (execLeg2 cfg tri ob2 ob3 w1 tx1 trades cum oldVal b2 b3).wallet = w0 := by
  unfold execLeg2
  dsimp only
  split
  · exact fun _ => congrArg Prod.fst (rollback_of_txinv (doLeg_txinv h _ _))
  · exact execLeg3_wallet (doLeg_txinv h _ _)

theorem execLeg1_wallet {cfg : SimConfig} {tri : Triangle}
    {ob1 ob2 ob3 : OrderBookData} {w : Wallet} {trades : ℤ} {cum oldVal b2 b3 : ℚ}
    (hw : w.Nonneg) :
    (execLeg1 cfg tri ob1 ob2 ob3 w trades cum oldVal b2 b3).success = false →
    (execLeg1 cfg tri ob1 ob2 ob3 w trades cum oldVal b2 b3).wallet = w := by
  unfold execLeg1
  dsimp only
  split
  · exact fun _ =>
      congrArg Prod.fst (rollback_of_txinv (doLeg_txinv (txInv_begin hw) _ _))
  · exact execLeg2_wallet (doLeg_txinv (txInv_begin hw) _ _)

/-- C1 (amended): in local mode, for every cycle, every triple of order
books, and every wallet whose totals and locked amounts are all nonnegative,
a failed `simulateTradeDepthWithWallet` leaves the wallet exactly as it was —
regardless of which pre-check or leg failed and however many `applyChange`
calls had succeeded.  (For a wallet already holding a negative balance the
rollback clamp can lose it: see
`execute_failure_rollback_clamp_counterexample`.) -/
theorem execute_failure_preserves_wallet (cfg : SimConfig) (tri : Triangle)
    (ob1 ob2 ob3 : OrderBookData) (w : Wallet) (trades : ℤ) (cum : ℚ)
    (hw : w.Nonneg) :
    (simulateTradeDepthWithWallet cfg tri ob1 ob2 ob3 w trades cum).success = false →
    (simulateTradeDepthWithWallet cfg tri ob1 ob2 ob3 w trades cum).wallet = w := by
  unfold simulateTradeDepthWithWallet
  split
  · exact fun _ => rfl
  · split
    · exact fun _ => rfl
    · split
      · exact fun _ => rfl
      · split
        · exact fun _ => rfl
        · split
          · exact fun _ => rfl
          · exact execLeg1_wallet hw

/-- The observable case shape of one execution: every failure path reports
`success = false`, no `absoluteProfit`, and unchanged counters; every
success path reports the realized `absoluteProfit` and updates the counters
exactly according to the `-1e-14` threshold. -/
def ShapePred (res : ExecResult) (trades : ℤ) (cum : ℚ) : Prop :=
  (res.success = false ∧ res.absoluteProfit = none ∧ res.totalTrades = trades ∧
    res.cumulativeProfit = cum) ∨
  (res.success = true ∧ ∃ p, res.absoluteProfit = some p ∧
    ((-epsProfit < p ∧ res.totalTrades = trades + 1 ∧
        res.cumulativeProfit = cum + p) ∨
     (p ≤ -epsProfit ∧ res.totalTrades = trades ∧ res.cumulativeProfit = cum)))

theorem execFinish_shapePred (w3 : Wallet) (trades : ℤ) (cum oldVal b2 b3 : ℚ) :
    ShapePred (execFinish w3 trades cum oldVal b2 b3) trades cum := by
  unfold ShapePred execFinish
  dsimp only
  split
  · rename_i h
    exact Or.inr ⟨rfl, _, rfl, Or.inl ⟨h, rfl, rfl⟩⟩
  · rename_i h
    exact Or.inr ⟨rfl, _, rfl, Or.inr ⟨not_lt.mp h, rfl, rfl⟩⟩

theorem execLeg3_shapePred (cfg : SimConfig) (tri : Triangle) (ob3 : OrderBookData)
    (w2 : Wallet) (tx2 : WalletTransaction) (trades : ℤ) (cum oldVal b2 b3 : ℚ) :
    ShapePred (execLeg3 cfg tri ob3 w2 tx2 trades cum oldVal b2 b3) trades cum := by
  unfold execLeg3
  dsimp only
  split
  · exact Or.inl ⟨rfl, rfl, rfl, rfl⟩
  · exact execFinish_shapePred _ _ _ _ _ _

theorem execLeg2_shapePred (cfg : SimConfig) (tri : Triangle) (ob2 ob3 : OrderBookData)
    (w1 : Wallet) (tx1 : WalletTransaction) (trades : ℤ) (cum oldVal b2 b3 : ℚ) :
    ShapePred (execLeg2 cfg tri ob2 ob3 w1 tx1 trades cum oldVal b2 b3) trades cum := by
  unfold execLeg2
  dsimp only
  split
  · exact Or.inl ⟨rfl, rfl, rfl, rfl⟩
  · exact execLeg3_shapePred _ _ _ _ _ _ _ _ _ _

theorem execLeg1_shapePred (cfg : SimConfig) (tri : Triangle)
    (ob1 ob2 ob3 : OrderBookData) (w : Wallet) (trades : ℤ) (cum oldVal b2 b3 : ℚ) :
    ShapePred (execLeg1 cfg tri ob1 ob2 ob3 w trades cum oldVal b2 b3) trades cum := by
  unfold execLeg1
  dsimp only
  split
  · exact Or.inl ⟨rfl, rfl, rfl, rfl⟩
  · exact execLeg2_shapePred _ _ _ _ _ _ _ _ _ _ _

theorem execute_shapePred (cfg : SimConfig) (tri : Triangle)
    (ob1 ob2 ob3 : OrderBookData) (w : Wallet) (trades : ℤ) (cum : ℚ) :
    ShapePred (simulateTradeDepthWithWallet cfg tri ob1 ob2 ob3 w trades cum)
      trades cum := by
  unfold simulateTradeDepthWithWallet
  split
  · exact Or.inl ⟨rfl, rfl, rfl, rfl⟩
  · split
    · exact Or.inl ⟨rfl, rfl, rfl, rfl⟩
    · split
      · exact Or.inl ⟨rfl, rfl, rfl, rfl⟩
      · split
        · exact Or.inl ⟨rfl, rfl, rfl, rfl⟩
        · split
          · exact Or.inl ⟨rfl, rfl, rfl, rfl⟩
          · exact execLeg1_shapePred _ _ _ _ _ _ _ _ _ _ _

/-- C9 (amended): on a committed (successful) execution the counters are
updated exactly when the realized `absoluteProfit` exceeds `-1e-14`:
`totalTrades` is incremented and `absoluteProfit` added to
`cumulativeProfit`; at or below `-1e-14` both counters stay unchanged.  In
particular a zero-profit cycle still increments `totalTrades` — see
`profit_counters_zero_profit_counterexample`. -/
theorem profit_counters_update_condition (cfg : SimConfig) (tri : Triangle)
    (ob1 ob2 ob3 : OrderBookData) (w : Wallet) (trades : ℤ) (cum : ℚ)
    (hsucc : (simulateTradeDepthWithWallet cfg tri ob1 ob2 ob3 w trades cum).success
      = true) :
    ∃ p, (simulateTradeDepthWithWallet cfg tri ob1 ob2 ob3 w trades cum).absoluteProfit
        = some p ∧
      (-epsProfit < p →
        (simulateTradeDepthWithWallet cfg tri ob1 ob2 ob3 w trades cum).totalTrades
            = trades + 1 ∧
        (simulateTradeDepthWithWallet cfg tri ob1 ob2 ob3 w trades cum).cumulativeProfit
            = cum + p) ∧
      (p ≤ -epsProfit →
        (simulateTradeDepthWithWallet cfg tri ob1 ob2 ob3 w trades cum).totalTrades
            = trades ∧
        (simulateTradeDepthWithWallet cfg tri ob1 ob2 ob3 w trades cum).cumulativeProfit
            = cum) := by
  have hshape := execute_shapePred cfg tri ob1 ob2 ob3 w trades cum
  unfold ShapePred at hshape
  rcases hshape with ⟨hf, _, _, _⟩ | ⟨_, p, hp, hcase⟩
  · rw [hf] at hsucc
    exact absurd hsucc (by simp)
  · refine ⟨p, hp, ?_, ?_⟩
    · intro hgt
      rcases hcase with ⟨_, ht, hc⟩ | ⟨hle, _, _⟩
      · exact ⟨ht, hc⟩
      · exact absurd hgt (not_lt.mpr hle)
    · intro hle2
      rcases hcase with ⟨hgt, _, _⟩ | ⟨_, ht, hc⟩
      · exact absurd hgt (not_lt.mpr hle2)
      · exact ⟨ht, hc⟩

/-- Trivial exchange filters (minNotional = minQty = 0) for the concrete
runs. -/
def zeroFilter : String → Option SymbolFilter := fun _ => some ⟨0, 0⟩

/-- Concrete configuration for the executable scenarios: no fee, slippage
tolerance 1, half the free balance per trade, full fill required, no minimum
USDT profit. -/
def testCfg : SimConfig := ⟨0, 1, 1 / 2, 1, 0, zeroFilter⟩

theorem parseSymbol_BTCUSDT : parseSymbol "BTCUSDT" = ("BTC", "USDT") := by decide

theorem parseSymbol_ETHUSDT : parseSymbol "ETHUSDT" = ("ETH", "USDT") := by decide

theorem parseSymbol_ETHBTC : parseSymbol "ETHBTC" = ("ETH", "BTC") := by decide

/-- Wallet for the C1 counterexample: BTC 1, ETH 2 and a NEGATIVE USDT total
of -5 (reachable through `setBalance`, which performs no sign check). -/
def c1w : Wallet :=
  ⟨fun a => if a = "BTC" then 1 else if a = "ETH" then 2 else
    if a = "USDT" then -5 else 0,
   fun _ => 0⟩

def c1tri : Triangle := ⟨"BTC", ["BTCUSDT", "ETHUSDT", "ETHUSDT"]⟩

def c1ob1 : OrderBookData := ⟨[⟨40, 10⟩], [⟨40, 10⟩]⟩

/-- Leg-2 book: best bid `1e-13`, below the `1e-12` cutoff of the real leg
but above the `0` cutoff of the estimate's fake leg. -/
def c1ob2 : OrderBookData := ⟨[⟨1 / 10 ^ 13, 100⟩], [⟨1, 1⟩]⟩

def c1ob3 : OrderBookData := ⟨[⟨30, 10⟩], [⟨30, 10⟩]⟩

/-- String-comparison facts used to evaluate the concrete scenarios. -/
theorem strf1 : ("BTC" = "ETH") = False := by simp

theorem strf2 : ("BTC" = "USDT") = False := by simp

theorem strf3 : ("ETH" = "BTC") = False := by simp

theorem strf4 : ("ETH" = "USDT") = False := by simp

theorem strf5 : ("USDT" = "BTC") = False := by simp

theorem strf6 : ("USDT" = "ETH") = False := by simp

theorem strf7 : ("USDT" = "UNKNOWN") = False := by simp

theorem strf8 : ("BTC" = "UNKNOWN") = False := by simp

theorem strf9 : ("USDT" = "BUSD") = False := by simp

theorem strf10 : ("BTC" = "BUSD") = False := by simp

set_option maxHeartbeats 2000000 in
theorem c1_eval :
    (simulateTradeDepthWithWallet testCfg c1tri c1ob1 c1ob2 c1ob3 c1w 0 0).success
      = false ∧
    (simulateTradeDepthWithWallet testCfg c1tri c1ob1 c1ob2 c1ob3 c1w 0 0).wallet.total
      "USDT" = 0 := by
  norm_num [simulateTradeDepthWithWallet, execLeg1, execLeg2, execLeg3, execFinish,
    execValue, estimateTriangleProfitUSDT, simulateLegFake, doLeg, legPlan,
    applyLegChanges, Wallet.applyChange, Wallet.rollbackTransaction, revertOne,
    Wallet.getFreeBalance, beginTransaction, passesExchangeFilters, fillWalk,
    headPriceD, eps12, epsProfit, parseSymbol_BTCUSDT, parseSymbol_ETHUSDT,
    testCfg, zeroFilter, c1w, c1tri, c1ob1, c1ob2, c1ob3, List.getD, min_def,
    strf1, strf2, strf3, strf4, strf5, strf6, strf7, strf8, strf9, strf10]

/-- C1 counterexample: starting from a wallet with USDT total -5 (a state
`setBalance` can produce), the estimate passes, leg 1 applies BTC -0.5 and
USDT +20, leg 2 fails on its tiny best bid, and the rollback clamps USDT at
0 instead of restoring -5 — so a failed execute does NOT always restore the
wallet when a stored balance was negative. -/
theorem execute_failure_rollback_clamp_counterexample :
    (simulateTradeDepthWithWallet testCfg c1tri c1ob1 c1ob2 c1ob3 c1w 0 0).success
      = false ∧
    (simulateTradeDepthWithWallet testCfg c1tri c1ob1 c1ob2 c1ob3 c1w 0 0).wallet.total
      "USDT" = 0 ∧
    c1w.total "USDT" = -5 :=
  ⟨c1_eval.1, c1_eval.2, by simp [c1w, strf5, strf6]⟩

/-- Witness for `execute_failure_preserves_wallet`: a nonnegative wallet and
an execution that fails on the empty leg-1 book. -/
theorem execute_failure_preserves_wallet_witness :
    initialWallet.Nonneg ∧
    (simulateTradeDepthWithWallet testCfg c1tri ⟨[], []⟩ ⟨[], []⟩ ⟨[], []⟩
      initialWallet 0 0).success = false ∧
    (simulateTradeDepthWithWallet testCfg c1tri ⟨[], []⟩ ⟨[], []⟩ ⟨[], []⟩
      initialWallet 0 0).wallet = initialWallet :=
  ⟨initialWallet_nonneg, by simp [simulateTradeDepthWithWallet],
   execute_failure_preserves_wallet testCfg c1tri _ _ _ initialWallet 0 0
     initialWallet_nonneg (by simp [simulateTradeDepthWithWallet])⟩

/-- Wallet for the C9 scenario: BTC 1, ETH 2, USDT 0, nothing locked. -/
def c9w : Wallet :=
  ⟨fun a => if a = "BTC" then 1 else if a = "ETH" then 2 else 0, fun _ => 0⟩

def c9tri : Triangle := ⟨"BTC", ["BTCUSDT", "ETHBTC", "ETHUSDT"]⟩

/-- A deep single-level book at price 1, used for all three legs. -/
def c9ob : OrderBookData := ⟨[⟨1, 100⟩], [⟨1, 100⟩]⟩

set_option maxHeartbeats 2000000 in
theorem c9_eval :
    (simulateTradeDepthWithWallet testCfg c9tri c9ob c9ob c9ob c9w 0 0).success
      = true ∧
    (simulateTradeDepthWithWallet testCfg c9tri c9ob c9ob c9ob c9w 0 0).absoluteProfit
      = some 0 ∧
    (simulateTradeDepthWithWallet testCfg c9tri c9ob c9ob c9ob c9w 0 0).totalTrades
      = 1 ∧
    (simulateTradeDepthWithWallet testCfg c9tri c9ob c9ob c9ob c9w 0 0).cumulativeProfit
      = 0 := by
  norm_num [simulateTradeDepthWithWallet, execLeg1, execLeg2, execLeg3, execFinish,
    execValue, estimateTriangleProfitUSDT, simulateLegFake, doLeg, legPlan,
    applyLegChanges, Wallet.applyChange, Wallet.rollbackTransaction, revertOne,
    Wallet.getFreeBalance, beginTransaction, passesExchangeFilters, fillWalk,
    headPriceD, eps12, epsProfit, parseSymbol_BTCUSDT, parseSymbol_ETHUSDT,
    parseSymbol_ETHBTC, testCfg, zeroFilter, c9w, c9tri, c9ob, List.getD, min_def,
    strf1, strf2, strf3, strf4, strf5, strf6, strf7, strf8, strf9, strf10]

/-- C9 counterexample: a cycle that commits with realized `absoluteProfit`
exactly 0 — the claim says a zero-profit committed cycle leaves both
counters unchanged, but the code's `> -1e-14` test fires and `totalTrades`
is incremented from 0 to 1. -/
theorem profit_counters_zero_profit_counterexample :
    (simulateTradeDepthWithWallet testCfg c9tri c9ob c9ob c9ob c9w 0 0).success
      = true ∧
    (simulateTradeDepthWithWallet testCfg c9tri c9ob c9ob c9ob c9w 0 0).absoluteProfit
      = some 0 ∧
    (simulateTradeDepthWithWallet testCfg c9tri c9ob c9ob c9ob c9w 0 0).totalTrades
      = 1 :=
  ⟨c9_eval.1, c9_eval.2.1, c9_eval.2.2.1⟩

/-- Witness for `profit_counters_update_condition` at the concrete committed
zero-profit run. -/
theorem profit_counters_update_condition_witness :
    (simulateTradeDepthWithWallet testCfg c9tri c9ob c9ob c9ob c9w 0 0).success
      = true ∧
    ∃ p, (simulateTradeDepthWithWallet testCfg c9tri c9ob c9ob c9ob c9w 0 0).absoluteProfit
        = some p ∧
      (-epsProfit < p →
        (simulateTradeDepthWithWallet testCfg c9tri c9ob c9ob c9ob c9w 0 0).totalTrades
            = 0 + 1 ∧
        (simulateTradeDepthWithWallet testCfg c9tri c9ob c9ob c9ob c9w 0 0).cumulativeProfit
            = 0 + p) ∧
      (p ≤ -epsProfit →
        (simulateTradeDepthWithWallet testCfg c9tri c9ob c9ob c9ob c9w 0 0).totalTrades
            = 0 ∧
        (simulateTradeDepthWithWallet testCfg c9tri c9ob c9ob c9ob c9w 0 0).cumulativeProfit
            = 0) :=
  ⟨c9_eval.1,
   profit_counters_update_condition testCfg c9tri c9ob c9ob c9ob c9w 0 0 c9_eval.1⟩

end TriArb
